import Mathlib

/-! Price feeder: polling provider, broadcast client, streaming trade history.

A shallow embedding of

* `price-feeder/oracle/provider/osmosis.go` : `OsmosisProvider.GetTickerPrices`
  (the part after the HTTP body has been unmarshalled into `tokensResp`),
* `price-feeder/oracle/client/client.go` : `OracleClient.BroadcastTx`,
* `price-feeder/oracle/provider/coinbase.go` : the ticker and candle reads, the
  subscription calls, `reconnect`, `messageReceived`, `setTradePair` and what
  they call,
* `price-feeder/oracle/provider/provider.go` : `newTickerPrice`, `PastUnixTime`,
  `mapPairsToSlice`.

Go maps are association lists with unique keys, Go `(value, error)` results
are pairs of options (`none` is Go's `nil`), and calls into libraries that
are not part of the repository (`strings.ToUpper`, `strconv.FormatFloat`,
`sdk.NewDecFromStr`, `time.Parse`, `json.Unmarshal`, the websocket and the
chain RPC) are parameters or scripted inputs of the definitions.
-/

namespace PriceFeeder

/-! ## Go maps with string keys -/

/-- A Go `map[string]V`: an association list that holds every key at most once. -/
def GoMap (V : Type) : Type := List (String × V)

namespace GoMap

variable {V : Type}

/-- The empty map that `make(map[string]V)` returns. -/
def empty : GoMap V := ([] : List (String × V))

/-- The lookup `v, ok := m[k]`; `none` stands for `ok == false`. -/
def get? : GoMap V → String → Option V
  | [], _ => none
  | (k', v) :: rest, k => if k' = k then some v else get? rest k

/-- The assignment `m[k] = v`: overwrites the entry of `k` or adds one. -/
def set : GoMap V → String → V → GoMap V
  | [], k, v => [(k, v)]
  | (k', v') :: rest, k, v => if k' = k then (k, v) :: rest else (k', v') :: set rest k v

/-- The keys of the map. -/
def keys (m : GoMap V) : List String := List.map Prod.fst m

/-- The builtin `len(m)`. -/
def len (m : GoMap V) : Nat := List.length m

/-- The entries of the map, as key and value. -/
def entries (m : GoMap V) : List (String × V) := m

/-- The values of the map. -/
def values (m : GoMap V) : List V := List.map Prod.snd m

end GoMap

instance {V : Type} [DecidableEq V] : DecidableEq (GoMap V) :=
  inferInstanceAs (DecidableEq (List (String × V)))

/-! ## Shared value types -/

/-- The type `types.CurrencyPair`. -/
structure CurrencyPair where
  Base : String
  Quote : String
  deriving DecidableEq, Repr

/-- Modelled from the spec: the method `String` of `types.CurrencyPair`, whose
package `price-feeder/oracle/types` is not among the sources. The spec gives the
string form as `BASE+QUOTE` with no separator, and the provider test reads the
entry of `{Base: "ATOM", Quote: "USDT"}` under `"ATOMUSDT"`. -/
def CurrencyPair.str (cp : CurrencyPair) : String := cp.Base ++ cp.Quote

/-- The type `TickerPrice` of `provider.go`, over the decimal type `D` (`sdk.Dec`). -/
structure TickerPrice (D : Type) where
  Price : D
  Volume : D
  deriving DecidableEq, Repr

/-- The library calls `GetTickerPrices` makes, over the float type `F` (Go's
`float64`) and the decimal type `D` (`sdk.Dec`): `strings.ToUpper`,
`strconv.FormatFloat(x, 'f', -1, 64)` and `sdk.NewDecFromStr`, the last with
`none` for a returned error. -/
structure Deps (F D : Type) where
  ToUpper : String → String
  FormatFloat : F → String
  NewDecFromStr : String → Option D

/-! ## Polling provider (Osmosis) -/

/-- The type `OsmosisTokenResponse`: one entry of the token snapshot. -/
structure OsmosisTokenResponse (F : Type) where
  Price : F
  Symbol : String
  Volume : F
  deriving DecidableEq, Repr

/-- The Go result `(map[string]TickerPrice, error)`; `none` is `nil` on either side. -/
abbrev TickerResult (D : Type) : Type := Option (GoMap (TickerPrice D)) × Option String

/-- The first loop of `GetTickerPrices` (osmosis.go 85-88): index the requested
pairs by their uppercased base, a later pair overwriting an earlier one. -/
def baseDenomIdx {F D : Type} (deps : Deps F D) (pairs : List CurrencyPair) :
    GoMap CurrencyPair :=
  pairs.foldl (fun idx cp => idx.set (deps.ToUpper cp.Base) cp) GoMap.empty

/-- The second loop of `GetTickerPrices` (osmosis.go 91-117) from the map built
so far: `Except.error` is the early `return nil, fmt.Errorf(...)` with its
message, `Except.ok` the map when the loop runs to its end. -/
def scanTokens {F D : Type} (deps : Deps F D) (idx : GoMap CurrencyPair) :
    List (OsmosisTokenResponse F) → GoMap (TickerPrice D) →
      Except String (GoMap (TickerPrice D))
  | [], tickerPrices => Except.ok tickerPrices
  | tr :: rest, tickerPrices =>
    let symbol := deps.ToUpper tr.Symbol
    match idx.get? symbol with
    | none => scanTokens deps idx rest tickerPrices
    | some cp =>
      if (tickerPrices.get? symbol).isSome then
        Except.error ("duplicate token found in Osmosis response: " ++ symbol)
      else
        let priceRaw := deps.FormatFloat tr.Price
        match deps.NewDecFromStr priceRaw with
        | none =>
          Except.error ("failed to read Osmosis price (" ++ priceRaw ++ ") for " ++ symbol)
        | some price =>
          let volumeRaw := deps.FormatFloat tr.Volume
          match deps.NewDecFromStr volumeRaw with
          | none =>
            Except.error ("failed to read Osmosis volume (" ++ volumeRaw ++ ") for " ++ symbol)
          | some volume =>
            scanTokens deps idx rest (tickerPrices.set cp.str ⟨price, volume⟩)

/-- The third loop of `GetTickerPrices` (osmosis.go 119-123): the first requested
pair whose pair-string is not a key of the map, if any. -/
def firstMissing {D : Type} (tickerPrices : GoMap (TickerPrice D)) :
    List CurrencyPair → Option CurrencyPair
  | [] => none
  | cp :: rest =>
    if (tickerPrices.get? cp.str).isSome then firstMissing tickerPrices rest else some cp

/-- The method `OsmosisProvider.GetTickerPrices` from osmosis.go 85 on, applied to
the requested pairs and to the unmarshalled snapshot `tokensResp`. -/
def GetTickerPrices {F D : Type} (deps : Deps F D) (pairs : List CurrencyPair)
    (tokensResp : List (OsmosisTokenResponse F)) : TickerResult D :=
  match scanTokens deps (baseDenomIdx deps pairs) tokensResp GoMap.empty with
  | Except.error e => (none, some e)
  | Except.ok tickerPrices =>
    match firstMissing tickerPrices pairs with
    | some cp => (none, some ("missing exchange rate for " ++ cp.str))
    | none => (some tickerPrices, none)

/-! ### A concrete instance of the library calls -/

/-- The value of a string of decimal digits, `none` when it is empty or holds
another character. -/
def digitsValue? (cs : List Char) : Option Nat :=
  if cs = [] then none
  else cs.foldl (fun acc c =>
    match acc with
    | none => none
    | some n => if c.isDigit then some (n * 10 + (c.toNat - 48)) else none) (some 0)

/-- The decimal an unsigned numeral `ddd` or `ddd.ddd` stands for, times `10^18`:
`none` when a part is empty or holds a character that is not a digit, when there
are more than 18 fractional digits, or more than 40 digits before the point. -/
def readUnsigned (cs : List Char) : Option Int :=
  match cs.splitOn '.' with
  | [whole] =>
    if whole.length ≤ 40 then (digitsValue? whole).map (fun n => (n : Int) * 10 ^ 18) else none
  | [whole, frac] =>
    if whole.length ≤ 40 ∧ frac.length ≤ 18 then
      match digitsValue? whole, digitsValue? frac with
      | some n, some f => some ((n : Int) * 10 ^ 18 + (f : Int) * 10 ^ (18 - frac.length))
      | _, _ => none
    else none
  | _ => none

/-- A reader of decimal numerals for the worked examples. On the texts that
`strconv.FormatFloat(x, 'f', -1, 64)` prints with at most 40 digits before the
point it returns what `sdk.NewDecFromStr` returns: the integer the decimal
stores (the value times `10^18`), and `none` for the library's errors (more than
18 fractional digits, `NaN`, `+Inf`, `-Inf`). Longer numerals are outside its
domain and read as `none`. -/
def readDec (s : String) : Option Int :=
  match s.data with
  | '-' :: rest => (readUnsigned rest).map (fun x => -x)
  | cs => readUnsigned cs

/-- The library calls for the worked examples: a `float64` is carried as the text
`strconv.FormatFloat(x, 'f', -1, 64)` prints for it, `ToUpper` maps the ASCII
letters as `strings.ToUpper` does, decimals are read by `readDec`. -/
def textDeps : Deps String Int where
  ToUpper := fun s => String.mk (s.data.map Char.toUpper)
  FormatFloat := fun x => x
  NewDecFromStr := readDec

/-! ## Broadcast client -/

/-- The value an `int64` operation stores: the result reduced to the range
`-2^63 .. 2^63 - 1`, as Go's wrap-around arithmetic does. -/
def wrapInt64 (x : Int) : Int := (x + 2 ^ 63) % 2 ^ 64 - 2 ^ 63

/-- The fields of `sdk.TxResponse` that `BroadcastTx` reads. -/
structure TxResponse where
  Code : Nat
  TxHash : String
  Height : Int
  deriving DecidableEq, Repr

/-- The result of one call `rpcClient.GetChainHeight(clientCtx)`. -/
inductive HeightQuery where
  | height (h : Int)
  | failed (err : String)
  deriving DecidableEq, Repr

/-- The result `(resp, err)` of one call of the package function
`BroadcastTx(clientCtx, factory, msgs...)`; `none` is `nil`. -/
structure Submit where
  resp : Option TxResponse
  err : Option String
  deriving DecidableEq, Repr

/-- What the retry loop does to the chain, in order: a height query with its
result, or a submit with the observed height it was made at and its result. -/
inductive Action where
  | query (r : HeightQuery)
  | submit (height : Int) (r : Submit)
  deriving DecidableEq, Repr

/-- A Go `error` value that `BroadcastTx` can return: one handed up by a callee
(context or factory creation, the height query), or the value that
`errors.New("broadcasting tx timed out")` creates at client.go 175. -/
inductive Error where
  | external (msg : String)
  | timedOut
  deriving DecidableEq, Repr

/-- The method `Error()` of the error value. -/
def Error.text : Error → String
  | Error.external msg => msg
  | Error.timedOut => "broadcasting tx timed out"

/-- How a call of `BroadcastTx` ends: `return nil`, `return err`, or the nil
pointer dereference of `resp.Code` at client.go 166 when the submit returned
neither a response nor an error. -/
inductive Return where
  | nil
  | err (e : Error)
  | nilDeref
  deriving DecidableEq, Repr

/-- The telemetry counters: the count stored under each key path. -/
abbrev Telemetry : Type := List String → Nat

/-- Modelled from the spec: the function `telemetry.IncrCounter(val, keys...)` of
the package `price-feeder/telemetry`, which is not among the sources. The spec
has a call increment the failure counter it names; the counter a call names is
its key path, and the others keep their value. -/
def IncrCounter (tel : Telemetry) (val : Nat) (keys : List String) : Telemetry :=
  fun k => if k = keys then tel k + val else tel k

/-- One execution of `BroadcastTx` against scripted outcomes: `ret` is how the
call ended, `none` when the scripted outcomes are used up while the loop still
runs; `telemetry` the counters at that point; `trace` the actions made. -/
structure Run where
  ret : Option Return
  telemetry : Telemetry
  trace : List Action

/-- Put actions in front of the trace of a run. -/
def Run.after (acts : List Action) (r : Run) : Run :=
  { r with trace := acts ++ r.trace }

/-- The test `resp != nil && resp.Code != 0` of client.go 141. -/
def Submit.codeRejected (s : Submit) : Bool :=
  match s.resp with
  | some r => r.Code != 0
  | none => false

/-- The value of `err` at client.go 145: replaced by the "invalid response code"
error when the code is rejected, else the error the submit returned. -/
def Submit.errAfterCode (s : Submit) : Option String :=
  match s.resp with
  | some r =>
    if r.Code != 0 then some ("invalid response code from tx: " ++ toString r.Code) else s.err
  | none => s.err

/-- The loop `for lastCheckHeight < maxBlockHeight` of client.go 127-172 followed
by the timeout exit of lines 174-175. Each iteration takes the next scripted
height-query result; an iteration that submits takes the next scripted submit
result. -/
def retryLoop (maxBlockHeight : Int) :
    List HeightQuery → List Submit → Int → Telemetry → Run
  | [], _, lastCheckHeight, tel =>
    if lastCheckHeight < maxBlockHeight then
      ⟨none, tel, []⟩
    else
      ⟨some (Return.err Error.timedOut), IncrCounter tel 1 ["failure", "tx", "timeout"], []⟩
  | q :: heights, submits, lastCheckHeight, tel =>
    if lastCheckHeight < maxBlockHeight then
      match q with
      | HeightQuery.failed e =>
        ⟨some (Return.err (Error.external e)), tel, [Action.query q]⟩
      | HeightQuery.height latestBlockHeight =>
        if latestBlockHeight ≤ lastCheckHeight then
          (retryLoop maxBlockHeight heights submits lastCheckHeight tel).after [Action.query q]
        else
          match submits with
          | [] => ⟨none, tel, [Action.query q]⟩
          | s :: rest =>
            let tel1 :=
              if s.codeRejected then IncrCounter tel 1 ["failure", "tx", "code"] else tel
            if s.errAfterCode.isSome then
              (retryLoop maxBlockHeight heights rest latestBlockHeight tel1).after
                [Action.query q, Action.submit latestBlockHeight s]
            else
              match s.resp with
              | none =>
                ⟨some Return.nilDeref, tel1, [Action.query q, Action.submit latestBlockHeight s]⟩
              | some _ =>
                ⟨some Return.nil, tel1, [Action.query q, Action.submit latestBlockHeight s]⟩
    else
      ⟨some (Return.err Error.timedOut), IncrCounter tel 1 ["failure", "tx", "timeout"], []⟩

/-- The method `OracleClient.BroadcastTx` (client.go 112-176). `clientCtxErr` and
`factoryErr` are the errors of `oc.CreateClientContext()` and
`oc.CreateTxFactory()` (`none` when they succeed), `heights` and `submits` the
scripted results of the height queries and of the submits, `tel` the counters
before the call. -/
def BroadcastTx (clientCtxErr factoryErr : Option String)
    (nextBlockHeight timeoutHeight : Int)
    (heights : List HeightQuery) (submits : List Submit) (tel : Telemetry) : Run :=
  let maxBlockHeight := wrapInt64 (nextBlockHeight + timeoutHeight)
  let lastCheckHeight := wrapInt64 (nextBlockHeight - 1)
  match clientCtxErr with
  | some e => ⟨some (Return.err (Error.external e)), tel, []⟩
  | none =>
    match factoryErr with
    | some e => ⟨some (Return.err (Error.external e)), tel, []⟩
    | none => retryLoop maxBlockHeight heights submits lastCheckHeight tel

/-- The heights at which a trace submits, in order. -/
def submitHeights : List Action → List Int
  | [] => []
  | Action.submit h _ :: rest => h :: submitHeights rest
  | Action.query _ :: rest => submitHeights rest

/-- The height-query results of a trace, in order. -/
def queriesOf : List Action → List HeightQuery
  | [] => []
  | Action.query q :: rest => q :: queriesOf rest
  | Action.submit _ _ :: rest => queriesOf rest

/-- The submit results of a trace, in order. -/
def submitsOf : List Action → List Submit
  | [] => []
  | Action.submit _ s :: rest => s :: submitsOf rest
  | Action.query _ :: rest => submitsOf rest

/-- A submit that succeeded: a response with code 0 and no error. -/
def Submit.succeeded (s : Submit) : Prop :=
  (∃ r, s.resp = some r ∧ r.Code = 0) ∧ s.err = none

/-- A submit that counts as a failed attempt: a non-zero code or an error. -/
def Submit.failedAttempt (s : Submit) : Prop :=
  (∃ r, s.resp = some r ∧ r.Code ≠ 0) ∨ s.err ≠ none

/-- The number of submits of a trace whose response came back with a non-zero code. -/
def codeRejections (tr : List Action) : Nat :=
  (submitsOf tr).countP (fun s => s.codeRejected)

/-- The shape of a trace against the way the call ended: a submit that is
followed by another action was a failed attempt, the call returned nil exactly
when the last action is a submit that succeeded, and with no action at all the
call did not return nil. -/
def settled : List Action → Option Return → Prop
  | [], ret => ret ≠ some Return.nil
  | Action.query _ :: rest, ret => settled rest ret
  | Action.submit _ s :: rest, ret =>
    (rest = [] ∧ (ret = some Return.nil ↔ s.succeeded)) ∨
    (rest ≠ [] ∧ s.failedAttempt ∧ settled rest ret)

/-- The counters with nothing counted. -/
def noCounts : Telemetry := fun _ => 0

/-! ## Streaming provider (Coinbase): trade history -/

/-- A `time.Time`, as the nanoseconds from the Unix epoch to the instant. -/
structure GoTime where
  unixNano : Int
  deriving DecidableEq, Repr

/-- The method `Time.Unix`: whole seconds since the epoch, rounded down. -/
def GoTime.Unix (t : GoTime) : Int := Int.fdiv t.unixNano 1000000000

/-- The method `Time.Add` for a duration in nanoseconds, away from the ends of
the range of instants a `time.Time` can hold. -/
def GoTime.Add (t : GoTime) (d : Int) : GoTime := ⟨t.unixNano + d⟩

/-- The constant `providerCandlePeriod` of provider.go: ten minutes, in nanoseconds. -/
def providerCandlePeriod : Int := 10 * (60 * 1000000000)

/-- The function `PastUnixTime` of provider.go 100-102, with `time.Now()` as the
argument `now`. -/
def PastUnixTime (now : GoTime) (t : Int) : Int :=
  wrapInt64 ((now.Add (wrapInt64 (t * -1))).Unix * (1000000000 / 1000000))

/-- The type `CoinbaseTradeResponse` of coinbase.go 49-55. -/
structure CoinbaseTradeResponse where
  Type' : String
  ProductID : String
  Time : String
  Size : String
  Price : String
  deriving DecidableEq, Repr

/-- The type `CoinbaseTrade` of coinbase.go 58-63. -/
structure CoinbaseTrade where
  Symbol : String
  Time : Int
  Size : String
  Price : String
  deriving DecidableEq, Repr

/-- The type `CoinbaseTicker` of coinbase.go 65-69. -/
structure CoinbaseTicker where
  ProductID : String
  Price : String
  Volume : String
  deriving DecidableEq, Repr

/-- The caches of a `CoinbaseProvider` (coinbase.go 36-38). -/
structure CoinbaseProvider where
  trades : GoMap (List CoinbaseTrade)
  tickers : GoMap CoinbaseTicker
  subscribedPairs : GoMap CurrencyPair

/-- The method `timeToUnix` of coinbase.go 236-243; `parse` is
`time.Parse(timeLayout, ·)` with `none` for a returned error. -/
def CoinbaseTradeResponse.timeToUnix (parse : String → Option GoTime)
    (tr : CoinbaseTradeResponse) : Int :=
  match parse tr.Time with
  | none => 0
  | some t => wrapInt64 (t.Unix * (1000000000 / 1000000))

/-- The method `toTrade` of coinbase.go 245-252. -/
def CoinbaseTradeResponse.toTrade (parse : String → Option GoTime)
    (tr : CoinbaseTradeResponse) : CoinbaseTrade :=
  { Time := tr.timeToUnix parse, Price := tr.Price, Symbol := tr.ProductID, Size := tr.Size }

/-- The loop of coinbase.go 270-274: append to `tradeList` the stored trades
that are newer than `staleTime`. -/
def appendFresh (staleTime : Int) : List CoinbaseTrade → List CoinbaseTrade → List CoinbaseTrade
  | tradeList, [] => tradeList
  | tradeList, t :: rest =>
    if staleTime < t.Time then appendFresh staleTime (tradeList ++ [t]) rest
    else appendFresh staleTime tradeList rest

/-- The method `setTradePair` of coinbase.go 263-276, with `time.Now()` as the
argument `now`; the lookup of a product id that has no entry gives the nil slice. -/
def CoinbaseProvider.setTradePair (parse : String → Option GoTime) (now : GoTime)
    (p : CoinbaseProvider) (tradeResponse : CoinbaseTradeResponse) : CoinbaseProvider :=
  let staleTime := PastUnixTime now providerCandlePeriod
  let tradeList : List CoinbaseTrade := [] ++ [tradeResponse.toTrade parse]
  let tradeList := appendFresh staleTime tradeList ((p.trades.get? tradeResponse.ProductID).getD [])
  { p with trades := p.trades.set tradeResponse.ProductID tradeList }


/-! ## Streaming provider (Coinbase): subscriptions, dispatch, ticker reads -/

/-- The function `currencyPairToCoinbasePair` of coinbase.go 338-340. -/
def currencyPairToCoinbasePair (pair : CurrencyPair) : String :=
  pair.Base ++ "-" ++ pair.Quote

/-- The type `CoinbaseSubscriptionMsg` of coinbase.go 42-46. -/
structure CoinbaseSubscriptionMsg where
  Type' : String
  ProductIDs : List String
  Channels : List String
  deriving DecidableEq, Repr

/-- The function `newCoinbaseSubscription` of coinbase.go 343-349. -/
def newCoinbaseSubscription (cp : List String) : CoinbaseSubscriptionMsg :=
  { Type' := "subscribe", ProductIDs := cp, Channels := ["matches", "ticker"] }

/-- The function `newTickerPrice` of provider.go 70-82; `Except.error` carries the
message of the returned error. -/
def newTickerPrice {D : Type} (NewDecFromStr : String → Option D)
    (provider symbol lastPrice volume : String) : Except String (TickerPrice D) :=
  match NewDecFromStr lastPrice with
  | none =>
    Except.error ("failed to parse " ++ provider ++ " price (" ++ lastPrice ++ ") for " ++ symbol)
  | some price =>
    match NewDecFromStr volume with
    | none =>
      Except.error ("failed to parse " ++ provider ++ " volume (" ++ volume ++ ") for " ++ symbol)
    | some volumeDec => Except.ok { Price := price, Volume := volumeDec }

/-- The method `toTickerPrice` of coinbase.go 332-334. -/
def CoinbaseTicker.toTickerPrice {D : Type} (NewDecFromStr : String → Option D)
    (ticker : CoinbaseTicker) : Except String (TickerPrice D) :=
  newTickerPrice NewDecFromStr "Coinbase" ticker.ProductID ticker.Price ticker.Volume

/-- The method `getTickerPrice` of coinbase.go 163-173. -/
def CoinbaseProvider.getTickerPrice {D : Type} (NewDecFromStr : String → Option D)
    (p : CoinbaseProvider) (cp : CurrencyPair) : Except String (TickerPrice D) :=
  let gp := currencyPairToCoinbasePair cp
  match p.tickers.get? gp with
  | some tickerPair => tickerPair.toTickerPrice NewDecFromStr
  | none => Except.error ("coinbase provider failed to get ticker price for " ++ gp)

/-- The loop of `CoinbaseProvider.GetTickerPrices` (coinbase.go 114-123) from the
map built so far, with the `return` after it. -/
def CoinbaseProvider.tickerLoop {D : Type} (NewDecFromStr : String → Option D)
    (p : CoinbaseProvider) : List CurrencyPair → GoMap (TickerPrice D) → TickerResult D
  | [], tickerPrices => (some tickerPrices, none)
  | currencyPair :: rest, tickerPrices =>
    match p.getTickerPrice NewDecFromStr currencyPair with
    | Except.error err => (none, some err)
    | Except.ok price =>
      CoinbaseProvider.tickerLoop NewDecFromStr p rest (tickerPrices.set currencyPair.str price)

/-- The method `CoinbaseProvider.GetTickerPrices` of coinbase.go 111-124. It only
reads the provider, so the provider after the call is the provider before it. -/
def CoinbaseProvider.GetTickerPrices {D : Type} (NewDecFromStr : String → Option D)
    (p : CoinbaseProvider) (pairs : List CurrencyPair) : CoinbaseProvider × TickerResult D :=
  (p, CoinbaseProvider.tickerLoop NewDecFromStr p pairs GoMap.empty)

/-- The type `CandlePrice` of provider.go 43-47. -/
structure CandlePrice (D : Type) where
  Price : D
  Volume : D
  TimeStamp : Int
  deriving DecidableEq, Repr

/-- The method `CoinbaseProvider.GetCandlePrices` of coinbase.go 127-129: the Go
result `(map[string][]CandlePrice, error)`, `none` for `nil` on either side. -/
def CoinbaseProvider.GetCandlePrices {D : Type} (_p : CoinbaseProvider)
    (_pairs : List CurrencyPair) : Option (GoMap (List (CandlePrice D))) × Option String :=
  (none, none)

/-- What a call that subscribes leaves behind: the provider, the returned error
(`none` for `nil`), and the messages handed to `wsClient.WriteJSON`, in order. -/
structure SubscribeOutcome where
  provider : CoinbaseProvider
  err : Option String
  written : List CoinbaseSubscriptionMsg

/-- The method `setSubscribedPairs` of coinbase.go 284-291. -/
def CoinbaseProvider.setSubscribedPairs (p : CoinbaseProvider) (cps : List CurrencyPair) :
    CoinbaseProvider :=
  { p with subscribedPairs := cps.foldl (fun m cp => m.set cp.str cp) p.subscribedPairs }

/-- The method `subscribe` of coinbase.go 141-154 with `subscribePairs` (279-281):
the message handed to `wsClient.WriteJSON`, and `writeErr`, the error that call
returns. -/
def CoinbaseProvider.subscribe (writeErr : Option String) (cps : List CurrencyPair) :
    CoinbaseSubscriptionMsg × Option String :=
  let topics := cps.foldl (fun topics cp => topics ++ [currencyPairToCoinbasePair cp]) []
  let tickerMsg := newCoinbaseSubscription topics
  (tickerMsg, writeErr)

/-- The method `SubscribeCurrencyPairs` of coinbase.go 132-138. -/
def CoinbaseProvider.SubscribeCurrencyPairs (writeErr : Option String) (p : CoinbaseProvider)
    (cps : List CurrencyPair) : SubscribeOutcome :=
  match CoinbaseProvider.subscribe writeErr cps with
  | (msg, some err) => { provider := p, err := some err, written := [msg] }
  | (msg, none) => { provider := p.setSubscribedPairs cps, err := none, written := [msg] }

/-- The function `mapPairsToSlice` of provider.go 105-115. `iter` is the order in
which the `range` loop visits the entries of the map, which Go leaves open. -/
def mapPairsToSlice (iter : GoMap CurrencyPair → List (String × CurrencyPair))
    (mapPairs : GoMap CurrencyPair) : List CurrencyPair :=
  (iter mapPairs).map Prod.snd

/-- The method `subscribedPairsToSlice` of coinbase.go 156-161. -/
def CoinbaseProvider.subscribedPairsToSlice
    (iter : GoMap CurrencyPair → List (String × CurrencyPair)) (p : CoinbaseProvider) :
    List CurrencyPair :=
  mapPairsToSlice iter p.subscribedPairs

/-- The method `reconnect` of coinbase.go 307-320. `dialErr` is the error of
`websocket.DefaultDialer.Dial` and `writeErr` that of the subscription write
(`none` when they succeed); the connection itself is not part of the state. -/
def CoinbaseProvider.reconnect (dialErr writeErr : Option String)
    (iter : GoMap CurrencyPair → List (String × CurrencyPair)) (p : CoinbaseProvider) :
    SubscribeOutcome :=
  match dialErr with
  | some err =>
    { provider := p, err := some ("error reconnecting to Coinbase websocket: " ++ err),
      written := [] }
  | none =>
    let currencyPairs := p.subscribedPairsToSlice iter
    CoinbaseProvider.SubscribeCurrencyPairs writeErr p currencyPairs

/-- The method `setTickerPair` of coinbase.go 254-258. -/
def CoinbaseProvider.setTickerPair (p : CoinbaseProvider) (ticker : CoinbaseTicker) :
    CoinbaseProvider :=
  { p with tickers := p.tickers.set ticker.ProductID ticker }

/-- The constant `websocket.TextMessage` of the websocket library. -/
def TextMessage : Int := 1

/-- The two calls of `json.Unmarshal` whose result `messageReceived` uses, over
the type `B` of frame bodies: the decoded value, filled as far as the decoder
got, and the returned error (`none` for `nil`). The third call, into
`CoinbaseErrResponse`, only feeds the log. -/
structure Json (B : Type) where
  unmarshalTrade : B → CoinbaseTradeResponse × Option String
  unmarshalTicker : B → CoinbaseTicker × Option String

/-- The method `messageReceived` of coinbase.go 206-233, with `time.Now()` as the
argument `now`. Logging leaves the provider as it is. -/
def CoinbaseProvider.messageReceived {B : Type} (json : Json B)
    (parse : String → Option GoTime) (now : GoTime) (p : CoinbaseProvider)
    (messageType : Int) (bz : B) : CoinbaseProvider :=
  if messageType ≠ TextMessage then p
  else
    match json.unmarshalTrade bz with
    | (_, some _) => p
    | (coinbaseTrade, none) =>
      if coinbaseTrade.Type' = "error" then p
      else if coinbaseTrade.Type' = "subscriptions" then p
      else if coinbaseTrade.Type' = "ticker" then
        p.setTickerPair (json.unmarshalTicker bz).1
      else p.setTradePair parse now coinbaseTrade

/-- The provider states a running provider can be in: the empty caches that
`NewCoinbaseProvider` creates, and what `SubscribeCurrencyPairs`,
`messageReceived` and `reconnect` make of a state that can be reached. -/
inductive Reachable : CoinbaseProvider → Prop where
  | init : Reachable ⟨GoMap.empty, GoMap.empty, GoMap.empty⟩
  | subscribed (writeErr : Option String) (p : CoinbaseProvider) (cps : List CurrencyPair) :
      Reachable p → Reachable (CoinbaseProvider.SubscribeCurrencyPairs writeErr p cps).provider
  | received {B : Type} (json : Json B) (parse : String → Option GoTime) (now : GoTime)
      (p : CoinbaseProvider) (messageType : Int) (bz : B) :
      Reachable p → Reachable (p.messageReceived json parse now messageType bz)
  | reconnected (dialErr writeErr : Option String)
      (iter : GoMap CurrencyPair → List (String × CurrencyPair)) (p : CoinbaseProvider) :
      (∀ m, List.Perm (iter m) m.entries) →
      Reachable p → Reachable (CoinbaseProvider.reconnect dialErr writeErr iter p).provider

/-- A frame for the worked examples, given by what `json.Unmarshal` makes of its
body for each of the two target types. -/
structure DecodedFrame where
  trade : CoinbaseTradeResponse
  tradeErr : Option String
  ticker : CoinbaseTicker
  tickerErr : Option String

/-- The decoder of the worked examples. -/
def decodedJson : Json DecodedFrame where
  unmarshalTrade := fun f => (f.trade, f.tradeErr)
  unmarshalTicker := fun f => (f.ticker, f.tickerErr)

/-- The method `Time.UnixMilli`: the milliseconds from the Unix epoch to the
instant, rounded down. -/
def GoTime.UnixMilli (t : GoTime) : Int := Int.fdiv t.unixNano 1000000

/-- The days from 1970-01-01 to the day `d` of month `m` of year `y` in the
proleptic Gregorian calendar. -/
def daysFromCivil (y m d : Int) : Int :=
  let y1 := if m ≤ 2 then y - 1 else y
  let era := Int.fdiv y1 400
  let yoe := y1 - era * 400
  let mp := if m > 2 then m - 3 else m + 9
  let doy := Int.fdiv (153 * mp + 2) 5 + d - 1
  let doe := yoe * 365 + Int.fdiv yoe 4 - Int.fdiv yoe 100 + doy
  era * 146097 + doe - 719468

/-- The number of days of month `m` in year `y`. -/
def daysIn (m y : Nat) : Nat :=
  if m = 2 then (if y % 4 = 0 ∧ (y % 100 ≠ 0 ∨ y % 400 = 0) then 29 else 28)
  else if m = 4 ∨ m = 6 ∨ m = 9 ∨ m = 11 then 30 else 31

/-- The characters of `cs` from position `a` up to position `b`. -/
def charsBetween (cs : List Char) (a b : Nat) : List Char := (cs.drop a).take (b - a)

/-- A reader of time texts for the worked examples. On a text of the exact shape
of `timeLayout`, `YYYY-MM-DDThh:mm:ss.ffffffZ` with digits in every field and a
date and time of day that exist, it returns the instant `time.Parse(timeLayout, ·)`
returns, in UTC. Texts of another shape are outside its domain and read as `none`. -/
def parseTimeLayout (s : String) : Option GoTime :=
  let cs := s.data
  if cs.length = 27 ∧ charsBetween cs 4 5 = ['-'] ∧ charsBetween cs 7 8 = ['-'] ∧
      charsBetween cs 10 11 = ['T'] ∧ charsBetween cs 13 14 = [':'] ∧
      charsBetween cs 16 17 = [':'] ∧ charsBetween cs 19 20 = ['.'] ∧
      charsBetween cs 26 27 = ['Z'] then
    match digitsValue? (charsBetween cs 0 4), digitsValue? (charsBetween cs 5 7),
        digitsValue? (charsBetween cs 8 10), digitsValue? (charsBetween cs 11 13),
        digitsValue? (charsBetween cs 14 16), digitsValue? (charsBetween cs 17 19),
        digitsValue? (charsBetween cs 20 26) with
    | some year, some month, some day, some hour, some min, some sec, some micro =>
      if 1 ≤ month ∧ month ≤ 12 ∧ 1 ≤ day ∧ day ≤ daysIn month year ∧
          hour < 24 ∧ min < 60 ∧ sec < 60 then
        some ⟨(((daysFromCivil year month day * 24 + hour) * 60 + min) * 60 + sec) * 1000000000
          + micro * 1000⟩
      else none
    | _, _, _, _, _, _, _ => none
  else none

/-! ## Go maps: lookup after assignment -/

namespace GoMap

variable {V : Type}

theorem get?_set_self (m : GoMap V) (k : String) (v : V) : (m.set k v).get? k = some v := by
  induction m with
  | nil => simp [set, get?]
  | cons e rest ih =>
    obtain ⟨k', v'⟩ := e
    by_cases h : k' = k
    · simp [set, get?, h]
    · simp [set, get?, h, ih]

theorem get?_set_ne (m : GoMap V) {k k' : String} (v : V) (h : k ≠ k') :
    (m.set k v).get? k' = m.get? k' := by
  induction m with
  | nil => simp [set, get?, h]
  | cons e rest ih =>
    obtain ⟨k1, v1⟩ := e
    by_cases h1 : k1 = k
    · subst h1
      simp [set, get?, h]
    · by_cases h2 : k1 = k'
      · subst h2
        simp [set, get?, h1]
      · simp [set, get?, h1, h2, ih]

theorem get?_set (m : GoMap V) (k k' : String) (v : V) :
    (m.set k v).get? k' = if k = k' then some v else m.get? k' := by
  by_cases h : k = k'
  · subst h; simp [get?_set_self]
  · simp [h, get?_set_ne m v h]

theorem get?_isSome_iff (m : GoMap V) (k : String) : (m.get? k).isSome ↔ k ∈ m.keys := by
  induction m with
  | nil => simp [get?, keys]
  | cons e rest ih =>
    obtain ⟨k1, v1⟩ := e
    by_cases h1 : k1 = k
    · simp [get?, keys, h1]
    · have h2 : ¬ k = k1 := fun h => h1 h.symm
      simp only [keys] at ih
      simp [get?, keys, h1, h2, ih]

theorem keys_set (m : GoMap V) (k : String) (v : V) :
    (m.set k v).keys = if k ∈ m.keys then m.keys else m.keys ++ [k] := by
  induction m with
  | nil => simp [set, keys]
  | cons e rest ih =>
    obtain ⟨k1, v1⟩ := e
    by_cases h1 : k1 = k
    · simp [set, keys, h1]
    · have h2 : ¬ k = k1 := fun h => h1 h.symm
      simp only [keys] at ih
      by_cases h3 : k ∈ List.map Prod.fst rest
      · simp [set, keys, h1, h2, ih, h3]
      · simp [set, keys, h1, h2, ih, h3]

theorem nodup_keys_set (m : GoMap V) (k : String) (v : V) (h : m.keys.Nodup) :
    (m.set k v).keys.Nodup := by
  rw [keys_set]
  by_cases h3 : k ∈ m.keys
  · simpa [h3] using h
  · simp only [h3, if_false]
    exact List.Nodup.append h (List.nodup_singleton k) (by simpa using h3)

end GoMap

/-! ## Polling provider: facts about the three loops -/

theorem baseDenomIdx_foldl_sound {F D : Type} (deps : Deps F D) (pairs : List CurrencyPair)
    (idx0 : GoMap CurrencyPair) (k : String) (cp : CurrencyPair)
    (h : (pairs.foldl (fun idx cp => idx.set (deps.ToUpper cp.Base) cp) idx0).get? k = some cp) :
    idx0.get? k = some cp ∨ (cp ∈ pairs ∧ deps.ToUpper cp.Base = k) := by
  induction pairs generalizing idx0 with
  | nil => exact Or.inl h
  | cons c rest ih =>
    simp only [List.foldl_cons] at h
    rcases ih _ h with h1 | ⟨h1, h2⟩
    · rw [GoMap.get?_set] at h1
      by_cases hk : deps.ToUpper c.Base = k
      · simp only [hk, if_true, Option.some.injEq] at h1
        subst h1
        exact Or.inr ⟨List.mem_cons_self _ _, hk⟩
      · simp only [hk, if_false] at h1
        exact Or.inl h1
    · exact Or.inr ⟨List.mem_cons_of_mem _ h1, h2⟩

theorem baseDenomIdx_foldl_isSome {F D : Type} (deps : Deps F D) (pairs : List CurrencyPair)
    (idx0 : GoMap CurrencyPair) (k : String)
    (h : (idx0.get? k).isSome ∨ ∃ cp ∈ pairs, deps.ToUpper cp.Base = k) :
    ((pairs.foldl (fun idx cp => idx.set (deps.ToUpper cp.Base) cp) idx0).get? k).isSome := by
  induction pairs generalizing idx0 with
  | nil =>
    rcases h with h | ⟨cp, hcp, _⟩
    · exact h
    · cases hcp
  | cons c rest ih =>
    simp only [List.foldl_cons]
    apply ih
    rcases h with h | ⟨cp, hcp, hk⟩
    · left
      rw [GoMap.get?_set]
      split
      · rfl
      · exact h
    · rcases List.mem_cons.mp hcp with h1 | h1
      · left
        subst h1
        rw [GoMap.get?_set, if_pos hk]
        rfl
      · exact Or.inr ⟨cp, h1, hk⟩

theorem baseDenomIdx_sound {F D : Type} (deps : Deps F D) (pairs : List CurrencyPair)
    (k : String) (cp : CurrencyPair) (h : (baseDenomIdx deps pairs).get? k = some cp) :
    cp ∈ pairs ∧ deps.ToUpper cp.Base = k := by
  rcases baseDenomIdx_foldl_sound deps pairs GoMap.empty k cp h with h1 | h1
  · simp [GoMap.empty, GoMap.get?] at h1
  · exact h1

theorem baseDenomIdx_complete {F D : Type} (deps : Deps F D) (pairs : List CurrencyPair)
    (cp : CurrencyPair) (h : cp ∈ pairs) :
    ∃ cp' ∈ pairs, deps.ToUpper cp'.Base = deps.ToUpper cp.Base ∧
      (baseDenomIdx deps pairs).get? (deps.ToUpper cp.Base) = some cp' := by
  have h1 := baseDenomIdx_foldl_isSome deps pairs GoMap.empty (deps.ToUpper cp.Base)
    (Or.inr ⟨cp, h, rfl⟩)
  obtain ⟨cp', h2⟩ := Option.isSome_iff_exists.mp h1
  obtain ⟨h3, h4⟩ := baseDenomIdx_sound deps pairs _ cp' h2
  exact ⟨cp', h3, h4, h2⟩

theorem firstMissing_eq_none {D : Type} (tp : GoMap (TickerPrice D)) (pairs : List CurrencyPair) :
    firstMissing tp pairs = none ↔ ∀ cp ∈ pairs, (tp.get? cp.str).isSome := by
  induction pairs with
  | nil => simp [firstMissing]
  | cons c rest ih =>
    by_cases h : (tp.get? c.str).isSome
    · simp [firstMissing, h, ih]
    · simp [firstMissing, h]

theorem firstMissing_eq_some {D : Type} (tp : GoMap (TickerPrice D)) (pairs : List CurrencyPair)
    (cp : CurrencyPair) (h : firstMissing tp pairs = some cp) :
    cp ∈ pairs ∧ tp.get? cp.str = none := by
  induction pairs with
  | nil => simp [firstMissing] at h
  | cons c rest ih =>
    by_cases h1 : (tp.get? c.str).isSome
    · simp only [firstMissing, h1, if_true] at h
      exact ⟨List.mem_cons_of_mem _ (ih h).1, (ih h).2⟩
    · simp only [firstMissing, h1] at h
      simp only [Bool.false_eq_true, if_false, Option.some.injEq] at h
      subst h
      refine ⟨List.mem_cons_self _ _, ?_⟩
      simpa using h1

/-- What a completed scan stored: every entry of the result was in the map before
the scan or was read from a snapshot entry whose uppercased symbol is indexed. -/
theorem scanTokens_origin {F D : Type} (deps : Deps F D) (idx : GoMap CurrencyPair)
    (snap : List (OsmosisTokenResponse F)) (tp tp' : GoMap (TickerPrice D))
    (h : scanTokens deps idx snap tp = Except.ok tp') (k : String) (v : TickerPrice D)
    (hv : tp'.get? k = some v) :
    tp.get? k = some v ∨ ∃ tr ∈ snap, ∃ cp,
      idx.get? (deps.ToUpper tr.Symbol) = some cp ∧ cp.str = k ∧
      deps.NewDecFromStr (deps.FormatFloat tr.Price) = some v.Price ∧
      deps.NewDecFromStr (deps.FormatFloat tr.Volume) = some v.Volume := by
  induction snap generalizing tp with
  | nil =>
    simp only [scanTokens, Except.ok.injEq] at h
    subst h
    exact Or.inl hv
  | cons tr rest ih =>
    simp only [scanTokens] at h
    split at h
    · rcases ih tp h with h1 | ⟨tr', h1, h2⟩
      · exact Or.inl h1
      · exact Or.inr ⟨tr', List.mem_cons_of_mem _ h1, h2⟩
    · rename_i cp hcp
      split at h
      · cases h
      · split at h
        · cases h
        · rename_i price hprice
          split at h
          · cases h
          · rename_i volume hvolume
            rcases ih _ h with h1 | ⟨tr', h1, h2⟩
            · rw [GoMap.get?_set] at h1
              by_cases hk : cp.str = k
              · simp only [hk, if_true, Option.some.injEq] at h1
                subst h1
                exact Or.inr ⟨tr, List.mem_cons_self _ _, cp, hcp, hk, hprice, hvolume⟩
              · simp only [hk, if_false] at h1
                exact Or.inl h1
            · exact Or.inr ⟨tr', List.mem_cons_of_mem _ h1, h2⟩

/-- A completed scan keeps every key it started with and holds the pair-string of
every indexed snapshot entry. -/
theorem scanTokens_covers {F D : Type} (deps : Deps F D) (idx : GoMap CurrencyPair)
    (snap : List (OsmosisTokenResponse F)) (tp tp' : GoMap (TickerPrice D))
    (h : scanTokens deps idx snap tp = Except.ok tp') :
    (∀ k, (tp.get? k).isSome → (tp'.get? k).isSome) ∧
    ∀ tr ∈ snap, ∀ cp, idx.get? (deps.ToUpper tr.Symbol) = some cp → (tp'.get? cp.str).isSome := by
  induction snap generalizing tp with
  | nil =>
    simp only [scanTokens, Except.ok.injEq] at h
    subst h
    exact ⟨fun _ hk => hk, fun tr htr => by cases htr⟩
  | cons tr rest ih =>
    simp only [scanTokens] at h
    split at h
    · rename_i hnone
      obtain ⟨h1, h2⟩ := ih tp h
      refine ⟨h1, ?_⟩
      intro tr' htr' cp hcp
      rcases List.mem_cons.mp htr' with e | e
      · subst e
        rw [hnone] at hcp
        cases hcp
      · exact h2 tr' e cp hcp
    · rename_i cp hcp
      split at h
      · cases h
      · split at h
        · cases h
        · rename_i price hprice
          split at h
          · cases h
          · rename_i volume hvolume
            obtain ⟨h1, h2⟩ := ih _ h
            have hset : ∀ k, (tp.get? k).isSome →
                ((tp.set cp.str ⟨price, volume⟩).get? k).isSome := by
              intro k hk
              rw [GoMap.get?_set]
              split
              · rfl
              · exact hk
            refine ⟨fun k hk => h1 k (hset k hk), ?_⟩
            intro tr' htr' cp' hcp'
            rcases List.mem_cons.mp htr' with e | e
            · subst e
              rw [hcp] at hcp'
              cases hcp'
              apply h1
              rw [GoMap.get?_set_self]
              rfl
            · exact h2 tr' e cp' hcp'

theorem scanTokens_nodup {F D : Type} (deps : Deps F D) (idx : GoMap CurrencyPair)
    (snap : List (OsmosisTokenResponse F)) (tp tp' : GoMap (TickerPrice D))
    (h : scanTokens deps idx snap tp = Except.ok tp') (hn : tp.keys.Nodup) :
    tp'.keys.Nodup := by
  induction snap generalizing tp with
  | nil =>
    simp only [scanTokens, Except.ok.injEq] at h
    subst h
    exact hn
  | cons tr rest ih =>
    simp only [scanTokens] at h
    split at h
    · exact ih tp h hn
    · split at h
      · cases h
      · split at h
        · cases h
        · split at h
          · cases h
          · exact ih _ h (GoMap.nodup_keys_set _ _ _ hn)

/-- The scan completes when every indexed snapshot entry has a price and a volume
that convert, and no key of the map, now or later, is itself an index key. -/
theorem scanTokens_completes {F D : Type} (deps : Deps F D) (idx : GoMap CurrencyPair)
    (snap : List (OsmosisTokenResponse F)) (tp : GoMap (TickerPrice D))
    (hparse : ∀ tr ∈ snap, ∀ cp, idx.get? (deps.ToUpper tr.Symbol) = some cp →
      (deps.NewDecFromStr (deps.FormatFloat tr.Price)).isSome ∧
      (deps.NewDecFromStr (deps.FormatFloat tr.Volume)).isSome)
    (hidx : ∀ s cp, idx.get? s = some cp → idx.get? cp.str = none)
    (hinv : ∀ k, (tp.get? k).isSome → idx.get? k = none) :
    ∃ tp', scanTokens deps idx snap tp = Except.ok tp' := by
  induction snap generalizing tp with
  | nil => exact ⟨tp, rfl⟩
  | cons tr rest ih =>
    have hrest : ∀ tr' ∈ rest, ∀ cp, idx.get? (deps.ToUpper tr'.Symbol) = some cp →
        (deps.NewDecFromStr (deps.FormatFloat tr'.Price)).isSome ∧
        (deps.NewDecFromStr (deps.FormatFloat tr'.Volume)).isSome :=
      fun tr' h' => hparse tr' (List.mem_cons_of_mem _ h')
    simp only [scanTokens]
    split
    · exact ih tp hrest hinv
    · rename_i cp hcp
      have hdup : (tp.get? (deps.ToUpper tr.Symbol)).isSome = false := by
        cases hx : (tp.get? (deps.ToUpper tr.Symbol)).isSome
        · rfl
        · rw [hinv _ hx] at hcp
          cases hcp
      obtain ⟨hp, hv⟩ := hparse tr (List.mem_cons_self _ _) cp hcp
      obtain ⟨price, hprice⟩ := Option.isSome_iff_exists.mp hp
      obtain ⟨volume, hvolume⟩ := Option.isSome_iff_exists.mp hv
      simp only [hdup, hprice, hvolume]
      apply ih _ hrest
      intro k hk
      rw [GoMap.get?_set] at hk
      by_cases e : cp.str = k
      · subst e
        exact hidx _ cp hcp
      · simp only [e, if_false] at hk
        exact hinv k hk

/-- When the scan completes and no requested pair is missing, the keys of the
map are the pair-strings of the requested pairs. -/
theorem keys_of_complete_scan {F D : Type} (deps : Deps F D) (pairs : List CurrencyPair)
    (tokensResp : List (OsmosisTokenResponse F)) (tp : GoMap (TickerPrice D))
    (hscan : scanTokens deps (baseDenomIdx deps pairs) tokensResp GoMap.empty = Except.ok tp)
    (hm : firstMissing tp pairs = none) (k : String) :
    k ∈ tp.keys ↔ ∃ cp ∈ pairs, cp.str = k := by
  constructor
  · intro hk
    obtain ⟨v, hv⟩ := Option.isSome_iff_exists.mp ((GoMap.get?_isSome_iff tp k).mpr hk)
    rcases scanTokens_origin deps _ _ _ _ hscan k v hv with h1 | ⟨tr, _, cp, hcp, hstr, _⟩
    · simp [GoMap.empty, GoMap.get?] at h1
    · exact ⟨cp, (baseDenomIdx_sound deps pairs _ cp hcp).1, hstr⟩
  · rintro ⟨cp, hcp, rfl⟩
    exact (GoMap.get?_isSome_iff tp cp.str).mp ((firstMissing_eq_none tp pairs).mp hm cp hcp)

/-! ## Polling provider: the claims -/

/-- C1, as amended: when the requested pairs have pairwise distinct uppercased
bases and pairwise distinct pair-strings, no pair-string is the uppercased base
of a requested pair, and the snapshot holds for each requested pair exactly one
entry with that base (compared uppercased) whose price and volume convert to
decimals, `GetTickerPrices` succeeds with a map of exactly `|P|` entries that
holds under each pair-string the decimals of the snapshot entry for that base. -/
theorem getTickerPrices_available {F D : Type} (deps : Deps F D) (pairs : List CurrencyPair)
    (tokensResp : List (OsmosisTokenResponse F))
    (hbase : (pairs.map (fun cp => deps.ToUpper cp.Base)).Nodup)
    (hstr : (pairs.map CurrencyPair.str).Nodup)
    (hkey : ∀ cp ∈ pairs, ∀ cp' ∈ pairs, cp.str ≠ deps.ToUpper cp'.Base)
    (hsnap : ∀ cp ∈ pairs, ∃ tr price volume,
      tokensResp.filter (fun tr => deps.ToUpper tr.Symbol = deps.ToUpper cp.Base) = [tr] ∧
      deps.NewDecFromStr (deps.FormatFloat tr.Price) = some price ∧
      deps.NewDecFromStr (deps.FormatFloat tr.Volume) = some volume) :
    ∃ m, GetTickerPrices deps pairs tokensResp = (some m, none) ∧ m.len = pairs.length ∧
      ∀ cp ∈ pairs, ∀ tr ∈ tokensResp, deps.ToUpper tr.Symbol = deps.ToUpper cp.Base →
        ∃ price volume, deps.NewDecFromStr (deps.FormatFloat tr.Price) = some price ∧
          deps.NewDecFromStr (deps.FormatFloat tr.Volume) = some volume ∧
          m.get? cp.str = some ⟨price, volume⟩ := by
  have hidxOf : ∀ cp ∈ pairs, (baseDenomIdx deps pairs).get? (deps.ToUpper cp.Base) = some cp := by
    intro cp hcp
    obtain ⟨cp', h1, h2, h3⟩ := baseDenomIdx_complete deps pairs cp hcp
    have e : cp' = cp := List.inj_on_of_nodup_map hbase h1 hcp h2
    rw [← e]
    rw [e] at h3 ⊢
    exact h3
  have honly : ∀ cp ∈ pairs, ∀ tr ∈ tokensResp, ∀ tr' ∈ tokensResp,
      deps.ToUpper tr.Symbol = deps.ToUpper cp.Base →
      deps.ToUpper tr'.Symbol = deps.ToUpper cp.Base → tr = tr' := by
    intro cp hcp tr htr tr' htr' h1 h2
    obtain ⟨tr0, _, _, hf, _, _⟩ := hsnap cp hcp
    have m1 : tr ∈ tokensResp.filter
        (fun tr => deps.ToUpper tr.Symbol = deps.ToUpper cp.Base) :=
      List.mem_filter.mpr ⟨htr, by simpa using h1⟩
    have m2 : tr' ∈ tokensResp.filter
        (fun tr => deps.ToUpper tr.Symbol = deps.ToUpper cp.Base) :=
      List.mem_filter.mpr ⟨htr', by simpa using h2⟩
    rw [hf] at m1 m2
    rw [List.mem_singleton.mp m1, List.mem_singleton.mp m2]
  have hhas : ∀ cp ∈ pairs, ∃ tr ∈ tokensResp,
      deps.ToUpper tr.Symbol = deps.ToUpper cp.Base ∧
      (deps.NewDecFromStr (deps.FormatFloat tr.Price)).isSome ∧
      (deps.NewDecFromStr (deps.FormatFloat tr.Volume)).isSome := by
    intro cp hcp
    obtain ⟨tr0, price, volume, hf, hp, hv⟩ := hsnap cp hcp
    have m0 : tr0 ∈ tokensResp.filter
        (fun tr => deps.ToUpper tr.Symbol = deps.ToUpper cp.Base) := by
      rw [hf]
      exact List.mem_singleton_self tr0
    obtain ⟨m1, m2⟩ := List.mem_filter.mp m0
    exact ⟨tr0, m1, by simpa using m2, by simp [hp], by simp [hv]⟩
  obtain ⟨tp, hscan⟩ := scanTokens_completes deps (baseDenomIdx deps pairs) tokensResp
    (GoMap.empty : GoMap (TickerPrice D))
    (by
      intro tr htr cp hcp
      obtain ⟨hmem, hup⟩ := baseDenomIdx_sound deps pairs _ cp hcp
      obtain ⟨tr0, htr0, hup0, hp, hv⟩ := hhas cp hmem
      have e : tr = tr0 := honly cp hmem tr htr tr0 htr0 hup.symm hup0
      rw [e]
      exact ⟨hp, hv⟩)
    (by
      intro s cp hcp
      cases hx : (baseDenomIdx deps pairs).get? cp.str with
      | none => rfl
      | some cp' =>
        obtain ⟨h1, h2⟩ := baseDenomIdx_sound deps pairs _ cp' hx
        exact absurd h2.symm (hkey cp (baseDenomIdx_sound deps pairs _ cp hcp).1 cp' h1))
    (by
      intro k hk
      simp [GoMap.empty, GoMap.get?] at hk)
  have hall : ∀ cp ∈ pairs, (tp.get? cp.str).isSome := by
    intro cp hcp
    obtain ⟨tr0, htr0, hup0, _, _⟩ := hhas cp hcp
    refine (scanTokens_covers deps _ _ _ _ hscan).2 tr0 htr0 cp ?_
    rw [hup0]
    exact hidxOf cp hcp
  have hm : firstMissing tp pairs = none := (firstMissing_eq_none tp pairs).mpr hall
  refine ⟨tp, ?_, ?_, ?_⟩
  · simp only [GetTickerPrices, hscan, hm]
  · have hn : tp.keys.Nodup :=
      scanTokens_nodup deps _ _ _ _ hscan (by simp [GoMap.empty, GoMap.keys])
    have hperm : List.Perm tp.keys (pairs.map CurrencyPair.str) := by
      rw [List.perm_ext_iff_of_nodup hn hstr]
      intro k
      rw [keys_of_complete_scan deps pairs tokensResp tp hscan hm k]
      simp [List.mem_map]
    have hlen := hperm.length_eq
    simpa [GoMap.len, GoMap.keys] using hlen
  · intro cp hcp tr htr hup
    obtain ⟨v, hv⟩ := Option.isSome_iff_exists.mp (hall cp hcp)
    rcases scanTokens_origin deps _ _ _ _ hscan cp.str v hv with
      h1 | ⟨tr', htr', cp', hcp', hs, hp, hvol⟩
    · simp [GoMap.empty, GoMap.get?] at h1
    · obtain ⟨hmem, hup'⟩ := baseDenomIdx_sound deps pairs _ cp' hcp'
      have e : cp' = cp := List.inj_on_of_nodup_map hstr hmem hcp hs
      rw [e] at hup'
      have e2 : tr = tr' := honly cp hcp tr htr tr' htr' hup hup'.symm
      rw [e2]
      exact ⟨v.Price, v.Volume, hp, hvol, hv⟩

/-- C1 at a concrete input: the snapshot `[{ATOM, 34.69, 2396974.02}]` and the
request `{ATOM, USDT}` give `{"ATOMUSDT": {34.69, 2396974.02}}`. -/
theorem getTickerPrices_available_witness :
    GetTickerPrices textDeps [⟨"ATOM", "USDT"⟩] [⟨"34.69", "ATOM", "2396974.02"⟩]
      = (some [("ATOMUSDT", ⟨34690000000000000000, 2396974020000000000000000⟩)], none) ∧
    ∃ m, GetTickerPrices textDeps [⟨"ATOM", "USDT"⟩] [⟨"34.69", "ATOM", "2396974.02"⟩]
        = (some m, none) ∧ m.len = 1 ∧
      ∀ cp ∈ [(⟨"ATOM", "USDT"⟩ : CurrencyPair)],
        ∀ tr ∈ [(⟨"34.69", "ATOM", "2396974.02"⟩ : OsmosisTokenResponse String)],
        textDeps.ToUpper tr.Symbol = textDeps.ToUpper cp.Base →
        ∃ price volume, textDeps.NewDecFromStr (textDeps.FormatFloat tr.Price) = some price ∧
          textDeps.NewDecFromStr (textDeps.FormatFloat tr.Volume) = some volume ∧
          m.get? cp.str = some ⟨price, volume⟩ :=
  ⟨by decide,
    getTickerPrices_available textDeps [⟨"ATOM", "USDT"⟩] [⟨"34.69", "ATOM", "2396974.02"⟩]
      (by decide) (by decide) (by decide)
      (by
        intro cp hcp
        rw [List.mem_singleton.mp hcp]
        exact ⟨⟨"34.69", "ATOM", "2396974.02"⟩, 34690000000000000000,
          2396974020000000000000000, by decide, by decide, by decide⟩)⟩

/-- C1 as stated fails: both requested pairs have their base `ATOM` in the
snapshot, yet the call fails, because the index by base keeps only the last pair
of a base. -/
theorem getTickerPrices_available_counterexample :
    (∀ cp ∈ [(⟨"ATOM", "USDT"⟩ : CurrencyPair), ⟨"ATOM", "USDC"⟩],
      ∃ tr ∈ [(⟨"34.69", "ATOM", "2396974.02"⟩ : OsmosisTokenResponse String)],
        tr.Symbol = cp.Base) ∧
    GetTickerPrices textDeps [⟨"ATOM", "USDT"⟩, ⟨"ATOM", "USDC"⟩]
        [⟨"34.69", "ATOM", "2396974.02"⟩]
      = (none, some "missing exchange rate for ATOMUSDT") := by
  decide

/-- C2, as amended: when two requested pairs have the same uppercased base
exactly when they have the same pair-string, and some requested pair is absent
from the snapshot (no snapshot symbol equals its base, compared uppercased),
`GetTickerPrices` returns a nil map and an error; the error is the one the scan
of the snapshot stopped on (duplicate token, unreadable price or volume), or,
when the scan ran to its end, "missing exchange rate for" followed by the
pair-string of a requested pair that is absent from the snapshot. -/
theorem getTickerPrices_missing {F D : Type} (deps : Deps F D) (pairs : List CurrencyPair)
    (tokensResp : List (OsmosisTokenResponse F))
    (hpairs : ∀ cp ∈ pairs, ∀ cp' ∈ pairs,
      (deps.ToUpper cp.Base = deps.ToUpper cp'.Base ↔ cp.str = cp'.str))
    (habs : ∃ cp ∈ pairs, ∀ tr ∈ tokensResp, deps.ToUpper tr.Symbol ≠ deps.ToUpper cp.Base) :
    (GetTickerPrices deps pairs tokensResp).1 = none ∧
    (GetTickerPrices deps pairs tokensResp).2 ≠ none ∧
    ((∃ e, scanTokens deps (baseDenomIdx deps pairs) tokensResp
          (GoMap.empty : GoMap (TickerPrice D)) = Except.error e ∧
        (GetTickerPrices deps pairs tokensResp).2 = some e) ∨
      ∃ cp ∈ pairs, (∀ tr ∈ tokensResp, deps.ToUpper tr.Symbol ≠ deps.ToUpper cp.Base) ∧
        (GetTickerPrices deps pairs tokensResp).2 =
          some ("missing exchange rate for " ++ cp.str)) := by
  cases hscan : scanTokens deps (baseDenomIdx deps pairs) tokensResp
      (GoMap.empty : GoMap (TickerPrice D)) with
  | error e =>
    have hR : GetTickerPrices deps pairs tokensResp = (none, some e) := by
      simp only [GetTickerPrices, hscan]
    rw [hR]
    exact ⟨rfl, by simp, Or.inl ⟨e, rfl, rfl⟩⟩
  | ok tp =>
    obtain ⟨cp0, hcp0, habs0⟩ := habs
    have hnone0 : tp.get? cp0.str = none := by
      cases hx : tp.get? cp0.str with
      | none => rfl
      | some v =>
        rcases scanTokens_origin deps _ _ _ _ hscan cp0.str v hx with
          h1 | ⟨tr, htr, cp', hcp', hs, _⟩
        · simp [GoMap.empty, GoMap.get?] at h1
        · obtain ⟨hmem, hup⟩ := baseDenomIdx_sound deps pairs _ cp' hcp'
          have e := (hpairs cp' hmem cp0 hcp0).mpr hs
          exact absurd (hup.symm.trans e) (habs0 tr htr)
    cases hm : firstMissing tp pairs with
    | none =>
      have := (firstMissing_eq_none tp pairs).mp hm cp0 hcp0
      rw [hnone0] at this
      cases this
    | some cp1 =>
      obtain ⟨hmem1, hnone1⟩ := firstMissing_eq_some tp pairs cp1 hm
      have hR : GetTickerPrices deps pairs tokensResp
          = (none, some ("missing exchange rate for " ++ cp1.str)) := by
        simp only [GetTickerPrices, hscan, hm]
      rw [hR]
      refine ⟨rfl, by simp, Or.inr ⟨cp1, hmem1, ?_, rfl⟩⟩
      intro tr htr hup
      obtain ⟨cp', hmem', hup', hget⟩ := baseDenomIdx_complete deps pairs cp1 hmem1
      rw [← hup] at hget
      have hsome := (scanTokens_covers deps _ _ _ _ hscan).2 tr htr cp' hget
      rw [(hpairs cp' hmem' cp1 hmem1).mp hup', hnone1] at hsome
      cases hsome

/-- C2 at a concrete input: the request `{FOO, BAR}` against a snapshot that
lacks `FOO` fails with the error that names `FOOBAR`. -/
theorem getTickerPrices_missing_witness :
    (GetTickerPrices textDeps [⟨"FOO", "BAR"⟩] [⟨"34.69", "ATOM", "2396974.02"⟩]).1 = none ∧
    (GetTickerPrices textDeps [⟨"FOO", "BAR"⟩] [⟨"34.69", "ATOM", "2396974.02"⟩]).2 ≠ none ∧
    ((∃ e, scanTokens textDeps (baseDenomIdx textDeps [⟨"FOO", "BAR"⟩])
          [⟨"34.69", "ATOM", "2396974.02"⟩]
          (GoMap.empty : GoMap (TickerPrice Int)) = Except.error e ∧
        (GetTickerPrices textDeps [⟨"FOO", "BAR"⟩] [⟨"34.69", "ATOM", "2396974.02"⟩]).2
          = some e) ∨
      ∃ cp ∈ [(⟨"FOO", "BAR"⟩ : CurrencyPair)],
        (∀ tr ∈ [(⟨"34.69", "ATOM", "2396974.02"⟩ : OsmosisTokenResponse String)],
          textDeps.ToUpper tr.Symbol ≠ textDeps.ToUpper cp.Base) ∧
        (GetTickerPrices textDeps [⟨"FOO", "BAR"⟩] [⟨"34.69", "ATOM", "2396974.02"⟩]).2 =
          some ("missing exchange rate for " ++ cp.str)) :=
  getTickerPrices_missing textDeps [⟨"FOO", "BAR"⟩] [⟨"34.69", "ATOM", "2396974.02"⟩]
    (by decide) (by decide)

/-- C2 as stated fails: `{FOO, BAR}` is absent from the snapshot, but the scan
stops on the price of `ATOM`, which has 19 fractional digits, and the error names
no missing pair. -/
theorem getTickerPrices_missing_counterexample :
    (∃ cp ∈ [(⟨"ATOM", "USDT"⟩ : CurrencyPair), ⟨"FOO", "BAR"⟩],
      ∀ tr ∈ [(⟨"0.0000000000000000001", "ATOM", "1"⟩ : OsmosisTokenResponse String)],
        textDeps.ToUpper tr.Symbol ≠ textDeps.ToUpper cp.Base) ∧
    GetTickerPrices textDeps [⟨"ATOM", "USDT"⟩, ⟨"FOO", "BAR"⟩]
        [⟨"0.0000000000000000001", "ATOM", "1"⟩]
      = (none, some "failed to read Osmosis price (0.0000000000000000001) for ATOM") ∧
    ¬ ∃ cp ∈ [(⟨"ATOM", "USDT"⟩ : CurrencyPair), ⟨"FOO", "BAR"⟩],
      (GetTickerPrices textDeps [⟨"ATOM", "USDT"⟩, ⟨"FOO", "BAR"⟩]
        [⟨"0.0000000000000000001", "ATOM", "1"⟩]).2
        = some ("missing exchange rate for " ++ cp.str) := by
  decide

/-- C3 at the failing input: the snapshot holds two entries for `ATOM`, the
requested base, and the call returns a map built from the second entry instead
of failing with the duplicate-token error: the duplicate check of osmosis.go 100
looks the uppercased symbol up in a map that is keyed by pair-string. -/
theorem getTickerPrices_duplicate_accepted :
    GetTickerPrices textDeps [⟨"ATOM", "USDT"⟩]
        [⟨"34.69", "ATOM", "2396974.02"⟩, ⟨"35", "ATOM", "1"⟩]
      = (some [("ATOMUSDT", ⟨35000000000000000000, 1000000000000000000⟩)], none) := by
  decide

/-- C4: `GetTickerPrices` never returns a partial result. When it returns
without an error the returned map is not nil and its key set is exactly the set
of pair-strings of the requested pairs; when it returns an error the returned
map is nil. -/
theorem getTickerPrices_whole_or_nil {F D : Type} (deps : Deps F D)
    (pairs : List CurrencyPair) (tokensResp : List (OsmosisTokenResponse F)) :
    ((GetTickerPrices deps pairs tokensResp).2 = none →
      ∃ m, (GetTickerPrices deps pairs tokensResp).1 = some m ∧
        ∀ k, k ∈ m.keys ↔ ∃ cp ∈ pairs, cp.str = k) ∧
    ((GetTickerPrices deps pairs tokensResp).2 ≠ none →
      (GetTickerPrices deps pairs tokensResp).1 = none) := by
  cases hscan : scanTokens deps (baseDenomIdx deps pairs) tokensResp
      (GoMap.empty : GoMap (TickerPrice D)) with
  | error e => simp [GetTickerPrices, hscan]
  | ok tp =>
    cases hm : firstMissing tp pairs with
    | some cp => simp [GetTickerPrices, hscan, hm]
    | none =>
      simp only [GetTickerPrices, hscan, hm]
      refine ⟨fun _ => ⟨tp, rfl, ?_⟩, fun h => absurd rfl h⟩
      exact keys_of_complete_scan deps pairs tokensResp tp hscan hm

/-- C4 at a concrete input: the call on `{ATOM, USDT}` returns no error and a map
whose only key is `ATOMUSDT`. -/
theorem getTickerPrices_whole_or_nil_witness :
    (GetTickerPrices textDeps [⟨"ATOM", "USDT"⟩] [⟨"34.69", "ATOM", "2396974.02"⟩]).2 = none ∧
    ∃ m, (GetTickerPrices textDeps [⟨"ATOM", "USDT"⟩] [⟨"34.69", "ATOM", "2396974.02"⟩]).1
        = some m ∧
      ∀ k, k ∈ m.keys ↔ ∃ cp ∈ [(⟨"ATOM", "USDT"⟩ : CurrencyPair)], cp.str = k :=
  ⟨by decide,
    (getTickerPrices_whole_or_nil textDeps [⟨"ATOM", "USDT"⟩]
      [⟨"34.69", "ATOM", "2396974.02"⟩]).1 (by decide)⟩


/-! ## Broadcast client: facts about the retry loop -/

theorem wrapInt64_of_range (x : Int) (h1 : -2 ^ 63 ≤ x) (h2 : x < 2 ^ 63) : wrapInt64 x = x := by
  unfold wrapInt64
  norm_num at h1 h2 ⊢
  omega

@[simp] theorem Run.after_ret (acts : List Action) (r : Run) : (r.after acts).ret = r.ret := rfl

@[simp] theorem Run.after_telemetry (acts : List Action) (r : Run) :
    (r.after acts).telemetry = r.telemetry := rfl

@[simp] theorem Run.after_trace (acts : List Action) (r : Run) :
    (r.after acts).trace = acts ++ r.trace := rfl

theorem Submit.failedAttempt_iff (s : Submit) : s.failedAttempt ↔ s.errAfterCode.isSome = true := by
  obtain ⟨resp, err⟩ := s
  cases resp with
  | none => cases err <;> simp [Submit.failedAttempt, Submit.errAfterCode]
  | some r =>
    by_cases hc : r.Code = 0
    · cases err <;> simp [Submit.failedAttempt, Submit.errAfterCode, hc]
    · cases err <;> simp [Submit.failedAttempt, Submit.errAfterCode, hc]

theorem Submit.succeeded_not_failed (s : Submit) (h : s.succeeded) : ¬ s.failedAttempt := by
  obtain ⟨⟨r, hr, hc⟩, he⟩ := h
  rintro (⟨r', hr', hc'⟩ | h')
  · rw [hr] at hr'
    cases hr'
    exact hc' hc
  · exact h' he

/-- Once `lastCheckHeight` has reached `maxBlockHeight` the loop is over: the call
counts a timeout and returns the timeout error, whatever is scripted. -/
theorem retryLoop_deadline (maxBlockHeight : Int) (heights : List HeightQuery)
    (submits : List Submit) (last : Int) (tel : Telemetry) (h : ¬ last < maxBlockHeight) :
    retryLoop maxBlockHeight heights submits last tel =
      ⟨some (Return.err Error.timedOut), IncrCounter tel 1 ["failure", "tx", "timeout"], []⟩ := by
  cases heights <;> simp [retryLoop, h]

theorem retryLoop_times_out (maxBlockHeight : Int) (heights : List HeightQuery)
    (submits : List Submit) (last : Int) (tel : Telemetry)
    (hq : ∀ q ∈ heights, ∃ h, q = HeightQuery.height h)
    (hreach : ∃ h, HeightQuery.height h ∈ heights ∧ maxBlockHeight ≤ h)
    (hfail : ∀ s ∈ submitsOf (retryLoop maxBlockHeight heights submits last tel).trace,
      s.failedAttempt)
    (hlen : heights.length ≤ submits.length) :
    (retryLoop maxBlockHeight heights submits last tel).ret
      = some (Return.err Error.timedOut) := by
  induction heights generalizing submits last tel with
  | nil =>
    obtain ⟨h, hmem, _⟩ := hreach
    cases hmem
  | cons q rest ih =>
    by_cases hlt : last < maxBlockHeight
    · obtain ⟨latest, rfl⟩ := hq q (List.mem_cons_self _ _)
      have hq' : ∀ q ∈ rest, ∃ h, q = HeightQuery.height h :=
        fun q hq0 => hq q (List.mem_cons_of_mem _ hq0)
      simp only [List.length_cons] at hlen
      by_cases hle : latest ≤ last
      · simp only [retryLoop, hlt, hle, if_true, Run.after_ret, Run.after_trace,
          List.singleton_append, submitsOf] at hfail ⊢
        apply ih submits last tel hq' _ hfail (by omega)
        obtain ⟨h, hmem, hmax⟩ := hreach
        rcases List.mem_cons.mp hmem with e | e
        · cases e
          omega
        · exact ⟨h, e, hmax⟩
      · cases submits with
        | nil => simp at hlen
        | cons s ss =>
          simp only [List.length_cons] at hlen
          cases hs : s.errAfterCode.isSome
          · exfalso
            have hin : s.failedAttempt := by
              apply hfail
              cases hr : s.resp <;> simp [retryLoop, hlt, hle, hs, hr, submitsOf]
            rw [Submit.failedAttempt_iff, hs] at hin
            cases hin
          · simp only [retryLoop, hlt, hle, if_true, if_false, hs, Run.after_ret,
              Run.after_trace, List.cons_append, List.nil_append, submitsOf,
              List.mem_cons, forall_eq_or_imp] at hfail ⊢
            by_cases hdone : latest < maxBlockHeight
            · apply ih ss latest _ hq' _ hfail.2 (by omega)
              obtain ⟨h, hmem, hmax⟩ := hreach
              rcases List.mem_cons.mp hmem with e | e
              · cases e
                omega
              · exact ⟨h, e, hmax⟩
            · rw [retryLoop_deadline _ _ _ _ _ hdone]
    · rw [retryLoop_deadline _ _ _ _ _ hlt]

theorem retryLoop_timeout_counter (maxBlockHeight : Int) (heights : List HeightQuery)
    (submits : List Submit) (last : Int) (tel : Telemetry) :
    (retryLoop maxBlockHeight heights submits last tel).telemetry ["failure", "tx", "timeout"]
      = tel ["failure", "tx", "timeout"] +
        (if (retryLoop maxBlockHeight heights submits last tel).ret
            = some (Return.err Error.timedOut) then 1 else 0) := by
  induction heights generalizing submits last tel with
  | nil =>
    by_cases hlt : last < maxBlockHeight
    · simp [retryLoop, hlt]
    · simp [retryLoop, hlt, IncrCounter]
  | cons q rest ih =>
    by_cases hlt : last < maxBlockHeight
    · cases q with
      | failed e => simp [retryLoop, hlt]
      | height latest =>
        by_cases hle : latest ≤ last
        · simp only [retryLoop, hlt, hle, if_true, Run.after_ret, Run.after_telemetry]
          exact ih submits last tel
        · cases submits with
          | nil => simp [retryLoop, hlt, hle]
          | cons s ss =>
            cases hs : s.errAfterCode.isSome
            · cases hr : s.resp <;> simp [retryLoop, hlt, hle, hs, hr] <;>
                split <;> simp [IncrCounter]
            · simp only [retryLoop, hlt, hle, if_true, if_false, hs, Run.after_ret,
                Run.after_telemetry]
              rw [ih ss latest _]
              split <;> simp [IncrCounter]
    · rw [retryLoop_deadline _ _ _ _ _ hlt]
      simp [IncrCounter]

theorem retryLoop_code_counter (maxBlockHeight : Int) (heights : List HeightQuery)
    (submits : List Submit) (last : Int) (tel : Telemetry) :
    (retryLoop maxBlockHeight heights submits last tel).telemetry ["failure", "tx", "code"]
      = tel ["failure", "tx", "code"] +
        codeRejections (retryLoop maxBlockHeight heights submits last tel).trace := by
  induction heights generalizing submits last tel with
  | nil =>
    by_cases hlt : last < maxBlockHeight
    · simp [retryLoop, hlt, codeRejections, submitsOf]
    · simp [retryLoop, hlt, IncrCounter, codeRejections, submitsOf]
  | cons q rest ih =>
    by_cases hlt : last < maxBlockHeight
    · cases q with
      | failed e => simp [retryLoop, hlt, codeRejections, submitsOf]
      | height latest =>
        by_cases hle : latest ≤ last
        · simp only [retryLoop, hlt, hle, if_true, Run.after_trace, Run.after_telemetry]
          rw [ih submits last tel]
          simp [codeRejections, submitsOf]
        · cases submits with
          | nil => simp [retryLoop, hlt, hle, codeRejections, submitsOf]
          | cons s ss =>
            cases hs : s.errAfterCode.isSome
            · cases hr : s.resp <;> cases hc : s.codeRejected <;>
                simp [retryLoop, hlt, hle, hs, hr, hc, IncrCounter, codeRejections, submitsOf]
            · simp only [retryLoop, hlt, hle, if_true, if_false, hs, Run.after_trace,
                Run.after_telemetry]
              rw [ih ss latest _]
              cases hc : s.codeRejected
              · simp [IncrCounter, codeRejections, submitsOf, hc, List.countP_cons]
              · simp [IncrCounter, codeRejections, submitsOf, hc, List.countP_cons]
                omega
    · rw [retryLoop_deadline _ _ _ _ _ hlt]
      simp [IncrCounter, codeRejections, submitsOf]

theorem retryLoop_other_counters (maxBlockHeight : Int) (heights : List HeightQuery)
    (submits : List Submit) (last : Int) (tel : Telemetry) (k : List String)
    (h1 : k ≠ ["failure", "tx", "code"]) (h2 : k ≠ ["failure", "tx", "timeout"]) :
    (retryLoop maxBlockHeight heights submits last tel).telemetry k = tel k := by
  induction heights generalizing submits last tel with
  | nil =>
    by_cases hlt : last < maxBlockHeight
    · simp [retryLoop, hlt]
    · simp [retryLoop, hlt, IncrCounter, h2]
  | cons q rest ih =>
    by_cases hlt : last < maxBlockHeight
    · cases q with
      | failed e => simp [retryLoop, hlt]
      | height latest =>
        by_cases hle : latest ≤ last
        · simp only [retryLoop, hlt, hle, if_true, Run.after_telemetry]
          exact ih submits last tel
        · cases submits with
          | nil => simp [retryLoop, hlt, hle]
          | cons s ss =>
            cases hs : s.errAfterCode.isSome
            · cases hr : s.resp <;> cases hc : s.codeRejected <;>
                simp [retryLoop, hlt, hle, hs, hr, hc, IncrCounter, h1]
            · simp only [retryLoop, hlt, hle, if_true, if_false, hs, Run.after_telemetry]
              rw [ih ss latest _]
              cases hc : s.codeRejected <;> simp [IncrCounter, h1]
    · rw [retryLoop_deadline _ _ _ _ _ hlt]
      simp [IncrCounter, h2]

/-- The submits of the loop are made at strictly increasing heights above
`lastCheckHeight`, and there are at most `maxBlockHeight - lastCheckHeight` of them. -/
theorem retryLoop_submit_heights (maxBlockHeight : Int) (heights : List HeightQuery)
    (submits : List Submit) (last : Int) (tel : Telemetry) :
    List.Chain (fun a b => a < b) last
        (submitHeights (retryLoop maxBlockHeight heights submits last tel).trace) ∧
    (((submitHeights (retryLoop maxBlockHeight heights submits last tel).trace).length : Int)
        ≤ if last < maxBlockHeight then maxBlockHeight - last else 0) := by
  induction heights generalizing submits last tel with
  | nil =>
    by_cases hlt : last < maxBlockHeight
    · simp [retryLoop, hlt, submitHeights]
      omega
    · simp [retryLoop, hlt, submitHeights]
  | cons q rest ih =>
    by_cases hlt : last < maxBlockHeight
    · cases q with
      | failed e =>
        simp [retryLoop, hlt, submitHeights]
        omega
      | height latest =>
        by_cases hle : latest ≤ last
        · simp only [retryLoop, hlt, hle, if_true, Run.after_trace, List.singleton_append,
            submitHeights]
          have := ih submits last tel
          simpa [hlt] using this
        · cases submits with
          | nil =>
            simp [retryLoop, hlt, hle, submitHeights]
            omega
          | cons s ss =>
            have hgt : last < latest := by omega
            cases hs : s.errAfterCode.isSome
            · cases hr : s.resp <;>
                simp [retryLoop, hlt, hle, hs, hr, submitHeights, hgt] <;> omega
            · simp only [retryLoop, hlt, hle, if_true, if_false, hs, Run.after_trace,
                List.cons_append, List.nil_append, submitHeights]
              generalize (if s.codeRejected = true then
                IncrCounter tel 1 ["failure", "tx", "code"] else tel) = tel1
              obtain ⟨hc, hl⟩ := ih ss latest tel1
              refine ⟨List.Chain.cons hgt hc, ?_⟩
              simp only [List.length_cons, Nat.cast_add, Nat.cast_one]
              by_cases hd : latest < maxBlockHeight
              · rw [if_pos hd] at hl
                omega
              · rw [if_neg hd] at hl
                omega
    · rw [retryLoop_deadline _ _ _ _ _ hlt]
      simp [submitHeights, hlt]

theorem retryLoop_settled (maxBlockHeight : Int) (heights : List HeightQuery)
    (submits : List Submit) (last : Int) (tel : Telemetry) :
    settled (retryLoop maxBlockHeight heights submits last tel).trace
      (retryLoop maxBlockHeight heights submits last tel).ret := by
  induction heights generalizing submits last tel with
  | nil =>
    by_cases hlt : last < maxBlockHeight <;> simp [retryLoop, hlt, settled]
  | cons q rest ih =>
    by_cases hlt : last < maxBlockHeight
    · cases q with
      | failed e => simp [retryLoop, hlt, settled]
      | height latest =>
        by_cases hle : latest ≤ last
        · simp only [retryLoop, hlt, hle, if_true, Run.after_trace, Run.after_ret,
            List.singleton_append, settled]
          exact ih submits last tel
        · cases submits with
          | nil => simp [retryLoop, hlt, hle, settled]
          | cons s ss =>
            cases hs : s.errAfterCode.isSome
            · have hnf : ¬ s.failedAttempt := by
                rw [Submit.failedAttempt_iff, hs]
                simp
              cases hr : s.resp with
              | none =>
                simp [retryLoop, hlt, hle, hs, hr, settled, Submit.succeeded]
              | some r =>
                have hsucc : s.succeeded := by
                  refine ⟨⟨r, hr, ?_⟩, ?_⟩
                  · by_contra hc
                    exact hnf (Or.inl ⟨r, hr, hc⟩)
                  · by_contra hc
                    exact hnf (Or.inr hc)
                simp [retryLoop, hlt, hle, hs, hr, settled, hsucc]
            · have hf : s.failedAttempt := (Submit.failedAttempt_iff s).mpr hs
              simp only [retryLoop, hlt, hle, if_true, if_false, hs, Run.after_trace,
                Run.after_ret, List.cons_append, List.nil_append, settled]
              generalize (if s.codeRejected = true then
                IncrCounter tel 1 ["failure", "tx", "code"] else tel) = tel1
              have h := ih ss latest tel1
              by_cases hnil : (retryLoop maxBlockHeight rest ss latest tel1).trace = []
              · left
                refine ⟨hnil, ?_⟩
                rw [hnil] at h
                simp only [settled] at h
                constructor
                · intro h'
                  exact absurd h' h
                · intro h'
                  exact absurd hf (Submit.succeeded_not_failed s h')
              · right
                exact ⟨hnil, hf, h⟩
    · rw [retryLoop_deadline _ _ _ _ _ hlt]
      simp [settled]

theorem settled_nil_iff (tr : List Action) (ret : Option Return) (h : settled tr ret) :
    ret = some Return.nil ↔ ∃ s ∈ submitsOf tr, s.succeeded := by
  induction tr with
  | nil => simpa [settled, submitsOf] using h
  | cons a rest ih =>
    cases a with
    | query q => simpa [submitsOf] using ih h
    | submit height s =>
      simp only [settled] at h
      rcases h with ⟨hnil, hiff⟩ | ⟨_, hf, hrest⟩
      · subst hnil
        simpa [submitsOf] using hiff
      · rw [ih hrest]
        simp only [submitsOf, List.mem_cons, exists_eq_or_imp]
        constructor
        · exact fun h' => Or.inr h'
        · rintro (h' | h')
          · exact absurd hf (Submit.succeeded_not_failed s h')
          · exact h'

theorem settled_success_last (tr : List Action) (ret : Option Return) (h : settled tr ret)
    (pre : List Action) (height : Int) (s : Submit) (post : List Action)
    (htr : tr = pre ++ Action.submit height s :: post) (hs : s.succeeded) :
    post = [] ∧ ∀ s' ∈ submitsOf pre, s'.failedAttempt := by
  induction tr generalizing pre with
  | nil => simp at htr
  | cons a rest ih =>
    cases pre with
    | nil =>
      simp only [List.nil_append, List.cons.injEq] at htr
      obtain ⟨ha, hrest⟩ := htr
      subst ha hrest
      simp only [settled] at h
      rcases h with ⟨hnil, _⟩ | ⟨_, hf, _⟩
      · exact ⟨hnil, by simp [submitsOf]⟩
      · exact absurd hf (Submit.succeeded_not_failed s hs)
    | cons b pre' =>
      simp only [List.cons_append, List.cons.injEq] at htr
      obtain ⟨ha, hrest⟩ := htr
      subst ha
      cases a with
      | query q =>
        simp only [settled] at h
        simpa [submitsOf] using ih h pre' hrest
      | submit h0 s0 =>
        simp only [settled] at h
        rcases h with ⟨hnil, _⟩ | ⟨_, hf, hrest'⟩
        · rw [hnil] at hrest
          simp at hrest
        · obtain ⟨h1, h2⟩ := ih hrest' pre' hrest
          refine ⟨h1, ?_⟩
          intro s' hs'
          simp only [submitsOf, List.mem_cons] at hs'
          rcases hs' with e | e
          · rw [e]
            exact hf
          · exact h2 s' e

/-- A loop that is still running when the height results `pre` are used up
returns on a failed next query, with that query as its last action. -/
theorem retryLoop_query_failure (maxBlockHeight : Int) (pre : List HeightQuery) (e : String)
    (rest : List HeightQuery) (submits : List Submit) (last : Int) (tel : Telemetry)
    (hrun : (retryLoop maxBlockHeight pre submits last tel).ret = none)
    (hlen : pre.length ≤ submits.length) :
    (retryLoop maxBlockHeight (pre ++ HeightQuery.failed e :: rest) submits last tel).ret
      = some (Return.err (Error.external e)) ∧
    (retryLoop maxBlockHeight (pre ++ HeightQuery.failed e :: rest) submits last tel).trace
      = (retryLoop maxBlockHeight pre submits last tel).trace
          ++ [Action.query (HeightQuery.failed e)] ∧
    (retryLoop maxBlockHeight (pre ++ HeightQuery.failed e :: rest) submits last tel).telemetry
      = (retryLoop maxBlockHeight pre submits last tel).telemetry ∧
    queriesOf (retryLoop maxBlockHeight pre submits last tel).trace = pre := by
  induction pre generalizing submits last tel with
  | nil =>
    by_cases hlt : last < maxBlockHeight
    · simp [retryLoop, hlt, queriesOf]
    · simp [retryLoop, hlt] at hrun
  | cons q pre' ih =>
    by_cases hlt : last < maxBlockHeight
    · cases q with
      | failed e' => simp [retryLoop, hlt] at hrun
      | height latest =>
        simp only [List.length_cons] at hlen
        by_cases hle : latest ≤ last
        · simp only [retryLoop, hlt, hle, if_true, Run.after_ret] at hrun
          obtain ⟨h1, h2, h3, h4⟩ := ih submits last tel hrun (by omega)
          rw [List.cons_append]
          simp only [retryLoop, hlt, hle, if_true, Run.after_ret,
            Run.after_trace, Run.after_telemetry, List.singleton_append, queriesOf]
          exact ⟨h1, by simp [h2], h3, by rw [h4]⟩
        · cases submits with
          | nil => simp at hlen
          | cons s ss =>
            simp only [List.length_cons] at hlen
            cases hs : s.errAfterCode.isSome
            · cases hr : s.resp <;> simp [retryLoop, hlt, hle, hs, hr] at hrun
            · simp only [retryLoop, hlt, hle, if_true, if_false, hs, Run.after_ret] at hrun
              obtain ⟨h1, h2, h3, h4⟩ := ih ss latest _ hrun (by omega)
              rw [List.cons_append]
              simp only [retryLoop, hlt, hle, if_true, if_false, hs, Run.after_ret,
                Run.after_trace, Run.after_telemetry, List.cons_append, List.nil_append,
                queriesOf]
              exact ⟨h1, by simp [h2], h3, by rw [h4]⟩
    · rw [retryLoop_deadline _ _ _ _ _ hlt] at hrun
      simp at hrun

theorem queriesOf_append (a b : List Action) : queriesOf (a ++ b) = queriesOf a ++ queriesOf b := by
  induction a with
  | nil => rfl
  | cons x rest ih => cases x <;> simp [queriesOf, ih]

theorem submitsOf_append (a b : List Action) : submitsOf (a ++ b) = submitsOf a ++ submitsOf b := by
  induction a with
  | nil => rfl
  | cons x rest ih => cases x <;> simp [submitsOf, ih]

theorem broadcastTx_settled (clientCtxErr factoryErr : Option String)
    (nextBlockHeight timeoutHeight : Int) (heights : List HeightQuery) (submits : List Submit)
    (tel : Telemetry) :
    settled (BroadcastTx clientCtxErr factoryErr nextBlockHeight timeoutHeight heights submits
        tel).trace
      (BroadcastTx clientCtxErr factoryErr nextBlockHeight timeoutHeight heights submits tel).ret := by
  cases clientCtxErr with
  | some e => simp [BroadcastTx, settled]
  | none =>
    cases factoryErr with
    | some e => simp [BroadcastTx, settled]
    | none => exact retryLoop_settled _ _ _ _ _

/-! ## Broadcast client: the claims -/

/-- C5, as amended: with `maxBlockHeight = nextBlockHeight + timeoutHeight`, when
every height query succeeds, some observed height is at least `maxBlockHeight`,
and every submit the loop makes is a failed attempt (the submit made on observing
the first height at or above `maxBlockHeight` included), `BroadcastTx` returns the
timeout error "broadcasting tx timed out" and counts one timeout: it neither
returns success nor is still running at the end of the scripted results. -/
theorem broadcastTx_times_out (nextBlockHeight timeoutHeight : Int)
    (heights : List HeightQuery) (submits : List Submit) (tel : Telemetry)
    (hq : ∀ q ∈ heights, ∃ h, q = HeightQuery.height h)
    (hreach : ∃ h, HeightQuery.height h ∈ heights ∧
      wrapInt64 (nextBlockHeight + timeoutHeight) ≤ h)
    (hfail : ∀ s ∈ submitsOf
        (BroadcastTx none none nextBlockHeight timeoutHeight heights submits tel).trace,
      s.failedAttempt)
    (hlen : heights.length ≤ submits.length) :
    (BroadcastTx none none nextBlockHeight timeoutHeight heights submits tel).ret
      = some (Return.err Error.timedOut) ∧
    Error.text Error.timedOut = "broadcasting tx timed out" ∧
    (BroadcastTx none none nextBlockHeight timeoutHeight heights submits tel).telemetry
        ["failure", "tx", "timeout"] = tel ["failure", "tx", "timeout"] + 1 := by
  have hret := retryLoop_times_out (wrapInt64 (nextBlockHeight + timeoutHeight)) heights submits
    (wrapInt64 (nextBlockHeight - 1)) tel hq hreach hfail hlen
  refine ⟨hret, rfl, ?_⟩
  have hc := retryLoop_timeout_counter (wrapInt64 (nextBlockHeight + timeoutHeight)) heights
    submits (wrapInt64 (nextBlockHeight - 1)) tel
  rw [hret] at hc
  simpa [BroadcastTx] using hc

/-- C5 at a concrete input: from height 100 with a window of 5 blocks, heights
100, 103, 105 and three failed submits end in the timeout error. -/
theorem broadcastTx_times_out_witness :
    (BroadcastTx none none 100 5
        [HeightQuery.height 100, HeightQuery.height 103, HeightQuery.height 105]
        [⟨none, some "connection refused"⟩, ⟨some ⟨5, "A1", 0⟩, none⟩,
          ⟨none, some "connection refused"⟩] noCounts).ret
      = some (Return.err Error.timedOut) ∧
    Error.text Error.timedOut = "broadcasting tx timed out" ∧
    (BroadcastTx none none 100 5
        [HeightQuery.height 100, HeightQuery.height 103, HeightQuery.height 105]
        [⟨none, some "connection refused"⟩, ⟨some ⟨5, "A1", 0⟩, none⟩,
          ⟨none, some "connection refused"⟩] noCounts).telemetry
        ["failure", "tx", "timeout"] = noCounts ["failure", "tx", "timeout"] + 1 :=
  broadcastTx_times_out 100 5
    [HeightQuery.height 100, HeightQuery.height 103, HeightQuery.height 105]
    [⟨none, some "connection refused"⟩, ⟨some ⟨5, "A1", 0⟩, none⟩,
      ⟨none, some "connection refused"⟩] noCounts
    (by simp) ⟨105, by decide, by decide⟩
    (by
      intro s hs
      have hs' : s ∈ [(⟨none, some "connection refused"⟩ : Submit), ⟨some ⟨5, "A1", 0⟩, none⟩,
          ⟨none, some "connection refused"⟩] := hs
      simp only [List.mem_cons, List.mem_singleton, List.not_mem_nil, or_false] at hs'
      rcases hs' with e | e | e <;> subst e
      · exact Or.inr (by simp)
      · exact Or.inl ⟨⟨5, "A1", 0⟩, rfl, by decide⟩
      · exact Or.inr (by simp))
    (by decide)

/-- C5 as stated fails: with `maxBlockHeight = 105`, the only submit made before
the height 106 is observed fails, every height query succeeds, and the call
returns nil, not the timeout error: the loop still submits at height 106. -/
theorem broadcastTx_times_out_counterexample :
    wrapInt64 (100 + 5) = 105 ∧
    (BroadcastTx none none 100 5 [HeightQuery.height 100, HeightQuery.height 106]
        [⟨none, some "connection refused"⟩, ⟨some ⟨0, "A1", 106⟩, none⟩] noCounts).trace
      = [Action.query (HeightQuery.height 100),
          Action.submit 100 ⟨none, some "connection refused"⟩,
          Action.query (HeightQuery.height 106),
          Action.submit 106 ⟨some ⟨0, "A1", 106⟩, none⟩] ∧
    (BroadcastTx none none 100 5 [HeightQuery.height 100, HeightQuery.height 106]
        [⟨none, some "connection refused"⟩, ⟨some ⟨0, "A1", 106⟩, none⟩] noCounts).ret
      = some Return.nil := by
  decide

/-- C6: `BroadcastTx` returns nil exactly when some submit it made came back with
code 0 and no error; such a submit is the last action of the loop, and every
submit before it was a failed attempt. On `nextBlockHeight = 100`,
`timeoutHeight = 5`, heights `[100, 100, 101, 103, 106]` and a submit that first
succeeds at height 103 it returns nil after the three submits at heights 100,
101, 103, none above `maxBlockHeight = 105`, without querying the height again. -/
theorem broadcastTx_success (clientCtxErr factoryErr : Option String)
    (nextBlockHeight timeoutHeight : Int) (heights : List HeightQuery) (submits : List Submit)
    (tel : Telemetry) :
    ((BroadcastTx clientCtxErr factoryErr nextBlockHeight timeoutHeight heights submits tel).ret
        = some Return.nil ↔
      ∃ s ∈ submitsOf (BroadcastTx clientCtxErr factoryErr nextBlockHeight timeoutHeight heights
        submits tel).trace, s.succeeded) ∧
    (∀ pre height s post,
      (BroadcastTx clientCtxErr factoryErr nextBlockHeight timeoutHeight heights submits
        tel).trace = pre ++ Action.submit height s :: post →
      s.succeeded → post = [] ∧ ∀ s' ∈ submitsOf pre, s'.failedAttempt) ∧
    ((BroadcastTx none none 100 5
        [HeightQuery.height 100, HeightQuery.height 100, HeightQuery.height 101,
          HeightQuery.height 103, HeightQuery.height 106]
        [⟨none, some "connection refused"⟩, ⟨some ⟨5, "A1", 0⟩, none⟩,
          ⟨some ⟨0, "A2", 104⟩, none⟩] noCounts).ret = some Return.nil ∧
      submitHeights (BroadcastTx none none 100 5
        [HeightQuery.height 100, HeightQuery.height 100, HeightQuery.height 101,
          HeightQuery.height 103, HeightQuery.height 106]
        [⟨none, some "connection refused"⟩, ⟨some ⟨5, "A1", 0⟩, none⟩,
          ⟨some ⟨0, "A2", 104⟩, none⟩] noCounts).trace = [100, 101, 103] ∧
      queriesOf (BroadcastTx none none 100 5
        [HeightQuery.height 100, HeightQuery.height 100, HeightQuery.height 101,
          HeightQuery.height 103, HeightQuery.height 106]
        [⟨none, some "connection refused"⟩, ⟨some ⟨5, "A1", 0⟩, none⟩,
          ⟨some ⟨0, "A2", 104⟩, none⟩] noCounts).trace
        = [HeightQuery.height 100, HeightQuery.height 100, HeightQuery.height 101,
            HeightQuery.height 103] ∧
      wrapInt64 (100 + 5) = 105) := by
  refine ⟨settled_nil_iff _ _ (broadcastTx_settled _ _ _ _ _ _ _), ?_, by decide⟩
  intro pre height s post htr hs
  exact settled_success_last _ _ (broadcastTx_settled _ _ _ _ _ _ _) pre height s post htr hs

/-- C6 at a concrete input: on the heights `[100, 100, 101, 103, 106]` the third
submit comes back with code 0 and no error, so the call returns nil. -/
theorem broadcastTx_success_witness :
    (BroadcastTx none none 100 5
        [HeightQuery.height 100, HeightQuery.height 100, HeightQuery.height 101,
          HeightQuery.height 103, HeightQuery.height 106]
        [⟨none, some "connection refused"⟩, ⟨some ⟨5, "A1", 0⟩, none⟩,
          ⟨some ⟨0, "A2", 104⟩, none⟩] noCounts).ret = some Return.nil :=
  (broadcastTx_success none none 100 5
      [HeightQuery.height 100, HeightQuery.height 100, HeightQuery.height 101,
        HeightQuery.height 103, HeightQuery.height 106]
      [⟨none, some "connection refused"⟩, ⟨some ⟨5, "A1", 0⟩, none⟩,
        ⟨some ⟨0, "A2", 104⟩, none⟩] noCounts).1.mpr
    ⟨⟨some ⟨0, "A2", 104⟩, none⟩, by decide, ⟨⟨0, "A2", 104⟩, rfl, rfl⟩, rfl⟩

/-- C7: when the loop is still running after the height results `pre` (with a
submit result scripted for each of them) and the next height query fails with
`e`, `BroadcastTx` returns that query's error at once: the failed query is the
last action, the queries made are those of `pre` and the failed one, no submit is
made after it, no counter changes, and the result is not the timeout error. -/
theorem broadcastTx_query_failure (nextBlockHeight timeoutHeight : Int)
    (pre : List HeightQuery) (e : String) (rest : List HeightQuery) (submits : List Submit)
    (tel : Telemetry)
    (hrun : (BroadcastTx none none nextBlockHeight timeoutHeight pre submits tel).ret = none)
    (hlen : pre.length ≤ submits.length) :
    (BroadcastTx none none nextBlockHeight timeoutHeight (pre ++ HeightQuery.failed e :: rest)
        submits tel).ret = some (Return.err (Error.external e)) ∧
    (BroadcastTx none none nextBlockHeight timeoutHeight (pre ++ HeightQuery.failed e :: rest)
        submits tel).ret ≠ some (Return.err Error.timedOut) ∧
    (BroadcastTx none none nextBlockHeight timeoutHeight (pre ++ HeightQuery.failed e :: rest)
        submits tel).trace
      = (BroadcastTx none none nextBlockHeight timeoutHeight pre submits tel).trace
          ++ [Action.query (HeightQuery.failed e)] ∧
    queriesOf (BroadcastTx none none nextBlockHeight timeoutHeight
        (pre ++ HeightQuery.failed e :: rest) submits tel).trace
      = pre ++ [HeightQuery.failed e] ∧
    submitsOf (BroadcastTx none none nextBlockHeight timeoutHeight
        (pre ++ HeightQuery.failed e :: rest) submits tel).trace
      = submitsOf (BroadcastTx none none nextBlockHeight timeoutHeight pre submits tel).trace ∧
    (BroadcastTx none none nextBlockHeight timeoutHeight (pre ++ HeightQuery.failed e :: rest)
        submits tel).telemetry
      = (BroadcastTx none none nextBlockHeight timeoutHeight pre submits tel).telemetry := by
  obtain ⟨h1, h2, h3, h4⟩ := retryLoop_query_failure
    (wrapInt64 (nextBlockHeight + timeoutHeight)) pre e rest submits
    (wrapInt64 (nextBlockHeight - 1)) tel hrun hlen
  simp only [BroadcastTx] at h1 h2 h3 h4 ⊢
  refine ⟨h1, ?_, h2, ?_, ?_, h3⟩
  · rw [h1]
    simp
  · rw [h2, queriesOf_append, h4]
    rfl
  · rw [h2, submitsOf_append]
    simp [submitsOf]

/-- C7 at a concrete input: after a failed submit at height 100 the loop is still
running; the next height query fails with "node unreachable" and the call
returns that error. -/
theorem broadcastTx_query_failure_witness :
    (BroadcastTx none none 100 5 ([HeightQuery.height 100] ++
        HeightQuery.failed "node unreachable" :: [HeightQuery.height 101])
        [⟨none, some "connection refused"⟩, ⟨some ⟨0, "A1", 101⟩, none⟩] noCounts).ret
      = some (Return.err (Error.external "node unreachable")) :=
  (broadcastTx_query_failure 100 5 [HeightQuery.height 100] "node unreachable"
    [HeightQuery.height 101]
    [⟨none, some "connection refused"⟩, ⟨some ⟨0, "A1", 101⟩, none⟩] noCounts
    (by decide) (by decide)).1

/-- C8: for `timeoutHeight ≥ 0` and no `int64` overflow, one call of `BroadcastTx`
makes at most `timeoutHeight + 1` submits, and the heights at which it submits
are strictly increasing, the first above `nextBlockHeight - 1`: no submit is made
while the height has not advanced past `lastCheckHeight`. -/
theorem broadcastTx_bounded_retries (clientCtxErr factoryErr : Option String)
    (nextBlockHeight timeoutHeight : Int) (heights : List HeightQuery) (submits : List Submit)
    (tel : Telemetry)
    (h0 : 0 ≤ timeoutHeight) (h1 : -2 ^ 63 ≤ nextBlockHeight - 1)
    (h2 : nextBlockHeight + timeoutHeight < 2 ^ 63) :
    ((submitHeights (BroadcastTx clientCtxErr factoryErr nextBlockHeight timeoutHeight heights
        submits tel).trace).length : Int) ≤ timeoutHeight + 1 ∧
    List.Chain (fun a b => a < b) (nextBlockHeight - 1)
      (submitHeights (BroadcastTx clientCtxErr factoryErr nextBlockHeight timeoutHeight heights
        submits tel).trace) := by
  cases clientCtxErr with
  | some e =>
    simp only [BroadcastTx, submitHeights, List.length_nil, List.Chain.nil, and_true]
    norm_num
    omega
  | none =>
    cases factoryErr with
    | some e =>
      simp only [BroadcastTx, submitHeights, List.length_nil, List.Chain.nil, and_true]
      norm_num
      omega
    | none =>
      have e1 : wrapInt64 (nextBlockHeight + timeoutHeight) = nextBlockHeight + timeoutHeight :=
        wrapInt64_of_range _ (by norm_num at h1 ⊢; omega) h2
      have e2 : wrapInt64 (nextBlockHeight - 1) = nextBlockHeight - 1 :=
        wrapInt64_of_range _ h1 (by norm_num at h2 ⊢; omega)
      obtain ⟨hc, hl⟩ := retryLoop_submit_heights (nextBlockHeight + timeoutHeight) heights
        submits (nextBlockHeight - 1) tel
      simp only [BroadcastTx, e1, e2]
      refine ⟨?_, hc⟩
      split at hl <;> omega

/-- C8 at a concrete input: with `nextBlockHeight = 100` and `timeoutHeight = 1`
the heights 100, 101, 102 and failing submits give two submits, at 100 and 101. -/
theorem broadcastTx_bounded_retries_witness :
    ((submitHeights (BroadcastTx none none 100 1
        [HeightQuery.height 100, HeightQuery.height 101, HeightQuery.height 102]
        [⟨none, some "connection refused"⟩, ⟨none, some "connection refused"⟩,
          ⟨none, some "connection refused"⟩] noCounts).trace).length : Int) ≤ 1 + 1 ∧
    List.Chain (fun a b => a < b) (100 - 1)
      (submitHeights (BroadcastTx none none 100 1
        [HeightQuery.height 100, HeightQuery.height 101, HeightQuery.height 102]
        [⟨none, some "connection refused"⟩, ⟨none, some "connection refused"⟩,
          ⟨none, some "connection refused"⟩] noCounts).trace) :=
  broadcastTx_bounded_retries none none 100 1
    [HeightQuery.height 100, HeightQuery.height 101, HeightQuery.height 102]
    [⟨none, some "connection refused"⟩, ⟨none, some "connection refused"⟩,
      ⟨none, some "connection refused"⟩] noCounts
    (by decide) (by decide) (by decide)

/-- C9, as amended: over the counter state, one call of `BroadcastTx` adds to
"failure/tx/code" the number of submits whose response came back with a non-zero
code, adds one to "failure/tx/timeout" exactly when it returns the timeout error
(so a successful run counts no timeout), and changes no other counter: a submit
that fails with an error and no rejected code is counted nowhere. -/
theorem broadcastTx_failure_counters (clientCtxErr factoryErr : Option String)
    (nextBlockHeight timeoutHeight : Int) (heights : List HeightQuery) (submits : List Submit)
    (tel : Telemetry) :
    (BroadcastTx clientCtxErr factoryErr nextBlockHeight timeoutHeight heights submits
        tel).telemetry ["failure", "tx", "code"]
      = tel ["failure", "tx", "code"] +
        codeRejections (BroadcastTx clientCtxErr factoryErr nextBlockHeight timeoutHeight
          heights submits tel).trace ∧
    (BroadcastTx clientCtxErr factoryErr nextBlockHeight timeoutHeight heights submits
        tel).telemetry ["failure", "tx", "timeout"]
      = tel ["failure", "tx", "timeout"] +
        (if (BroadcastTx clientCtxErr factoryErr nextBlockHeight timeoutHeight heights submits
            tel).ret = some (Return.err Error.timedOut) then 1 else 0) ∧
    ∀ k, k ≠ ["failure", "tx", "code"] → k ≠ ["failure", "tx", "timeout"] →
      (BroadcastTx clientCtxErr factoryErr nextBlockHeight timeoutHeight heights submits
        tel).telemetry k = tel k := by
  cases clientCtxErr with
  | some e => simp [BroadcastTx, codeRejections, submitsOf]
  | none =>
    cases factoryErr with
    | some e => simp [BroadcastTx, codeRejections, submitsOf]
    | none =>
      exact ⟨retryLoop_code_counter _ _ _ _ _, retryLoop_timeout_counter _ _ _ _ _,
        fun k h1 h2 => retryLoop_other_counters _ _ _ _ _ k h1 h2⟩

/-- C9 at a concrete input: a run whose only submit is rejected with code 5 and
that then times out leaves the counter "failure/tx/submit" as it was. -/
theorem broadcastTx_failure_counters_witness :
    (BroadcastTx none none 100 0 [HeightQuery.height 100] [⟨some ⟨5, "A1", 0⟩, none⟩]
        noCounts).telemetry ["failure", "tx", "submit"] = noCounts ["failure", "tx", "submit"] :=
  (broadcastTx_failure_counters none none 100 0 [HeightQuery.height 100]
    [⟨some ⟨5, "A1", 0⟩, none⟩] noCounts).2.2 ["failure", "tx", "submit"]
    (by decide) (by decide)

/-- C9 as stated fails: a submit that fails with a submission error and no
response is followed by a successful one; the call returns nil and every counter
is what it was before the call, so no "could not submit" counter was incremented. -/
theorem broadcastTx_failure_counters_counterexample :
    submitsOf (BroadcastTx none none 100 5 [HeightQuery.height 100, HeightQuery.height 101]
        [⟨none, some "connection refused"⟩, ⟨some ⟨0, "A1", 101⟩, none⟩] noCounts).trace
      = [⟨none, some "connection refused"⟩, ⟨some ⟨0, "A1", 101⟩, none⟩] ∧
    (BroadcastTx none none 100 5 [HeightQuery.height 100, HeightQuery.height 101]
        [⟨none, some "connection refused"⟩, ⟨some ⟨0, "A1", 101⟩, none⟩] noCounts).ret
      = some Return.nil ∧
    (BroadcastTx none none 100 5 [HeightQuery.height 100, HeightQuery.height 101]
        [⟨none, some "connection refused"⟩, ⟨some ⟨0, "A1", 101⟩, none⟩] noCounts).telemetry
      = noCounts :=
  ⟨by decide, by decide, rfl⟩

/-! ## Streaming provider: the trade history after `setTradePair` -/

theorem appendFresh_eq (staleTime : Int) (tradeList old : List CoinbaseTrade) :
    appendFresh staleTime tradeList old
      = tradeList ++ old.filter (fun t => staleTime < t.Time) := by
  induction old generalizing tradeList with
  | nil => simp [appendFresh]
  | cons t rest ih =>
    by_cases h : staleTime < t.Time
    · simp [appendFresh, h, ih]
    · simp [appendFresh, h, ih]

/-- The history `setTradePair` stores for the product id of the frame: the
converted frame, then the stored trades newer than the stale time. -/
theorem setTradePair_history (parse : String → Option GoTime) (now : GoTime)
    (p : CoinbaseProvider) (tr : CoinbaseTradeResponse) :
    (p.setTradePair parse now tr).trades.get? tr.ProductID
      = some (tr.toTrade parse :: ((p.trades.get? tr.ProductID).getD []).filter
          (fun t => PastUnixTime now providerCandlePeriod < t.Time)) := by
  simp [CoinbaseProvider.setTradePair, GoMap.get?_set_self, appendFresh_eq]

/-- C10 at the failing inputs: a frame whose converted timestamp is not newer
than the stale time is stored all the same, at the head of the history of its
product id: the loop of coinbase.go 270-274 filters only the trades that were
stored before, not the one that line 269 has just added. -/
theorem setTradePair_stores_stale_trade (parse : String → Option GoTime) (now : GoTime)
    (p : CoinbaseProvider) (tr : CoinbaseTradeResponse)
    (hstale : (tr.toTrade parse).Time ≤ PastUnixTime now providerCandlePeriod) :
    ∃ t ∈ ((p.setTradePair parse now tr).trades.get? tr.ProductID).getD [],
      t = tr.toTrade parse ∧ ¬ PastUnixTime now providerCandlePeriod < t.Time := by
  rw [setTradePair_history]
  exact ⟨tr.toTrade parse, by simp, rfl, by omega⟩

/-- C10 at a concrete input: at unix time 1650000000 the stale time is
1649999400000 ms; a trade frame of 2020-01-01 for `ATOM-USDT`, inserted into an
empty history, is in the history afterwards. -/
theorem setTradePair_stores_stale_trade_witness :
    PastUnixTime ⟨1650000000000000000⟩ providerCandlePeriod = 1649999400000 ∧
    ∃ t ∈ (((⟨GoMap.empty, GoMap.empty, GoMap.empty⟩ : CoinbaseProvider).setTradePair
        (fun s => if s = "2020-01-01T00:00:00.000000Z" then some ⟨1577836800000000000⟩ else none)
        ⟨1650000000000000000⟩
        ⟨"match", "ATOM-USDT", "2020-01-01T00:00:00.000000Z", "0.5", "30.12"⟩).trades.get?
          "ATOM-USDT").getD [],
      t = (⟨"ATOM-USDT", 1577836800000, "0.5", "30.12"⟩ : CoinbaseTrade) ∧
        ¬ PastUnixTime ⟨1650000000000000000⟩ providerCandlePeriod < t.Time :=
  ⟨by decide,
    setTradePair_stores_stale_trade
      (fun s => if s = "2020-01-01T00:00:00.000000Z" then some ⟨1577836800000000000⟩ else none)
      ⟨1650000000000000000⟩ ⟨GoMap.empty, GoMap.empty, GoMap.empty⟩
      ⟨"match", "ATOM-USDT", "2020-01-01T00:00:00.000000Z", "0.5", "30.12"⟩ (by decide)⟩


/-! ## Streaming provider: trade frames and dispatch -/

/-- C11: `setTradePair` leaves as the history of the frame's product id the
converted trade followed by exactly the previously stored trades of that id
whose timestamp is strictly newer than the stale time, in their previous order,
so at most one trade more than before; the histories of all other product ids,
the ticker cache and the subscription set are unchanged. -/
theorem setTradePair_frame (parse : String → Option GoTime) (now : GoTime)
    (p : CoinbaseProvider) (tr : CoinbaseTradeResponse) :
    (p.setTradePair parse now tr).trades.get? tr.ProductID
      = some (tr.toTrade parse :: ((p.trades.get? tr.ProductID).getD []).filter
          (fun t => PastUnixTime now providerCandlePeriod < t.Time)) ∧
    List.Sublist (((p.trades.get? tr.ProductID).getD []).filter
        (fun t => PastUnixTime now providerCandlePeriod < t.Time))
      ((p.trades.get? tr.ProductID).getD []) ∧
    (((p.setTradePair parse now tr).trades.get? tr.ProductID).getD []).length
      ≤ ((p.trades.get? tr.ProductID).getD []).length + 1 ∧
    (∀ k, k ≠ tr.ProductID → (p.setTradePair parse now tr).trades.get? k = p.trades.get? k) ∧
    (p.setTradePair parse now tr).tickers = p.tickers ∧
    (p.setTradePair parse now tr).subscribedPairs = p.subscribedPairs := by
  refine ⟨setTradePair_history parse now p tr, List.filter_sublist _, ?_, ?_, rfl, rfl⟩
  · rw [setTradePair_history]
    simp only [Option.getD_some, List.length_cons, add_le_add_iff_right]
    exact List.length_filter_le _ _
  · intro k hk
    simp only [CoinbaseProvider.setTradePair]
    exact GoMap.get?_set_ne _ _ (fun h => hk h.symm)

/-- C11 at a concrete input: a trade frame for `ATOM-USDT` leaves the stored
history of `LUNA-USDT` as it was. -/
theorem setTradePair_frame_witness :
    ((⟨[("LUNA-USDT", [⟨"LUNA-USDT", 1647345600000, "1", "90.1"⟩])], GoMap.empty,
        GoMap.empty⟩ : CoinbaseProvider).setTradePair parseTimeLayout ⟨1647345660000000000⟩
      ⟨"match", "ATOM-USDT", "2022-03-15T12:00:59.000000Z", "0.5", "30.12"⟩).trades.get?
        "LUNA-USDT"
      = some [⟨"LUNA-USDT", 1647345600000, "1", "90.1"⟩] :=
  (setTradePair_frame parseTimeLayout ⟨1647345660000000000⟩
    ⟨[("LUNA-USDT", [⟨"LUNA-USDT", 1647345600000, "1", "90.1"⟩])], GoMap.empty, GoMap.empty⟩
    ⟨"match", "ATOM-USDT", "2022-03-15T12:00:59.000000Z", "0.5", "30.12"⟩).2.2.2.1
    "LUNA-USDT" (by decide)

/-- C12, as amended: a frame that is not a text frame, whose body does not
decode, or whose type discriminant is "error" or "subscriptions" leaves the
provider, so the ticker cache and every trade history, unchanged. -/
theorem messageReceived_drops {B : Type} (json : Json B) (parse : String → Option GoTime)
    (now : GoTime) (p : CoinbaseProvider) (messageType : Int) (bz : B)
    (h : messageType ≠ TextMessage ∨ (json.unmarshalTrade bz).2 ≠ none ∨
      (json.unmarshalTrade bz).1.Type' = "error" ∨
      (json.unmarshalTrade bz).1.Type' = "subscriptions") :
    p.messageReceived json parse now messageType bz = p := by
  unfold CoinbaseProvider.messageReceived
  by_cases hm : messageType ≠ TextMessage
  · rw [if_pos hm]
  · rw [if_neg hm]
    rcases hu : json.unmarshalTrade bz with ⟨trade, err⟩
    rw [hu] at h
    cases err with
    | some e => rfl
    | none =>
      simp only
      rcases h with h | h | h | h
      · exact absurd h hm
      · exact absurd rfl h
      · simp only at h
        rw [if_pos h]
      · simp only at h
        by_cases he : trade.Type' = "error"
        · rw [if_pos he]
        · rw [if_neg he, if_pos h]

/-- C12 at a concrete input: an "error" frame leaves a provider with a cached
ticker as it was. -/
theorem messageReceived_drops_witness :
    (⟨GoMap.empty, [("ATOM-USDT", ⟨"ATOM-USDT", "30.12", "1000"⟩)], GoMap.empty⟩ :
        CoinbaseProvider).messageReceived decodedJson parseTimeLayout ⟨1647345660000000000⟩ 1
      ⟨⟨"error", "", "", "", ""⟩, none, ⟨"", "", ""⟩, none⟩
      = ⟨GoMap.empty, [("ATOM-USDT", ⟨"ATOM-USDT", "30.12", "1000"⟩)], GoMap.empty⟩ :=
  messageReceived_drops decodedJson parseTimeLayout ⟨1647345660000000000⟩
    ⟨GoMap.empty, [("ATOM-USDT", ⟨"ATOM-USDT", "30.12", "1000"⟩)], GoMap.empty⟩ 1
    ⟨⟨"error", "", "", "", ""⟩, none, ⟨"", "", ""⟩, none⟩
    (Or.inr (Or.inr (Or.inl rfl)))

/-- C12 as stated fails: a text frame whose type is "heartbeat", a value other
than "ticker", "match" and "last_match", is handled as a trade frame and stored
in the trade history of its product id. -/
theorem messageReceived_drops_counterexample :
    (⟨GoMap.empty, GoMap.empty, GoMap.empty⟩ : CoinbaseProvider).trades.get? "ATOM-USDT" = none ∧
    ((⟨GoMap.empty, GoMap.empty, GoMap.empty⟩ : CoinbaseProvider).messageReceived decodedJson
        parseTimeLayout ⟨1647345660000000000⟩ 1
        ⟨⟨"heartbeat", "ATOM-USDT", "2022-03-15T12:00:59.000000Z", "", ""⟩, none,
          ⟨"ATOM-USDT", "", ""⟩, none⟩).trades.get? "ATOM-USDT"
      = some [⟨"ATOM-USDT", 1647345659000, "", ""⟩] := by
  decide

/-! ## Streaming provider: the subscription set -/

theorem GoMap.set_same {V : Type} (m : GoMap V) (k : String) (v : V)
    (h : m.get? k = some v) : m.set k v = m := by
  induction m with
  | nil => simp [GoMap.get?] at h
  | cons e rest ih =>
    obtain ⟨k1, v1⟩ := e
    by_cases h1 : k1 = k
    · subst h1
      simp only [GoMap.get?, if_true, Option.some.injEq] at h
      subst h
      simp [GoMap.set]
    · simp only [GoMap.get?, h1, if_false] at h
      simp [GoMap.set, h1, ih h]

theorem GoMap.get?_of_mem {V : Type} (m : GoMap V) (k : String) (v : V)
    (hn : m.keys.Nodup) (h : (k, v) ∈ m.entries) : m.get? k = some v := by
  induction m with
  | nil => cases h
  | cons e rest ih =>
    obtain ⟨k1, v1⟩ := e
    simp only [GoMap.keys, List.map_cons, List.nodup_cons, List.mem_map, Prod.exists,
      exists_and_right, exists_eq_right, not_exists] at hn
    rcases List.mem_cons.mp h with e | e
    · cases e
      simp [GoMap.get?]
    · have hne : k1 ≠ k := by
        intro hk
        subst hk
        exact hn.1 v e
      simp only [GoMap.get?, hne, if_false]
      exact ih hn.2 e

theorem foldl_set_get? (cps : List CurrencyPair) (m0 : GoMap CurrencyPair) (k : String) :
    (cps.foldl (fun m cp => m.set cp.str cp) m0).get? k
      = match cps.reverse.find? (fun cp => cp.str = k) with
        | some cp => some cp
        | none => m0.get? k := by
  induction cps generalizing m0 with
  | nil => simp
  | cons c rest ih =>
    simp only [List.foldl_cons, List.reverse_cons, List.find?_append]
    rw [ih]
    cases hf : rest.reverse.find? (fun cp => cp.str = k) with
    | some cp => simp
    | none =>
      by_cases hc : c.str = k
      · subst hc
        simp [List.find?, GoMap.get?_set_self]
      · simp [List.find?, hc, GoMap.get?_set_ne _ _ hc]

theorem foldl_set_nodup (cps : List CurrencyPair) (m0 : GoMap CurrencyPair)
    (h : m0.keys.Nodup) : (cps.foldl (fun m cp => m.set cp.str cp) m0).keys.Nodup := by
  induction cps generalizing m0 with
  | nil => exact h
  | cons c rest ih => exact ih _ (GoMap.nodup_keys_set _ _ _ h)

theorem foldl_set_same (cps : List CurrencyPair) (m0 : GoMap CurrencyPair)
    (h : ∀ cp ∈ cps, m0.get? cp.str = some cp) :
    cps.foldl (fun m cp => m.set cp.str cp) m0 = m0 := by
  induction cps with
  | nil => rfl
  | cons c rest ih =>
    simp only [List.foldl_cons]
    rw [GoMap.set_same m0 c.str c (h c (List.mem_cons_self _ _))]
    exact ih (fun cp hcp => h cp (List.mem_cons_of_mem _ hcp))

theorem foldl_topics (cps : List CurrencyPair) (acc : List String) :
    cps.foldl (fun topics cp => topics ++ [currencyPairToCoinbasePair cp]) acc
      = acc ++ cps.map currencyPairToCoinbasePair := by
  induction cps generalizing acc with
  | nil => simp
  | cons c rest ih => simp [ih]

/-- In a state that can be reached the subscription set holds each key once and
holds every pair under its own pair-string. -/
theorem Reachable.subscribedPairs_keyed (p : CoinbaseProvider) (h : Reachable p) :
    p.subscribedPairs.keys.Nodup ∧
    ∀ k cp, p.subscribedPairs.get? k = some cp → cp.str = k := by
  have hsub : ∀ (writeErr : Option String) (q : CoinbaseProvider) (cps : List CurrencyPair),
      (q.subscribedPairs.keys.Nodup ∧ ∀ k cp, q.subscribedPairs.get? k = some cp → cp.str = k) →
      ((CoinbaseProvider.SubscribeCurrencyPairs writeErr q cps).provider.subscribedPairs.keys.Nodup
        ∧ ∀ k cp, (CoinbaseProvider.SubscribeCurrencyPairs writeErr q cps).provider.subscribedPairs.get?
          k = some cp → cp.str = k) := by
    intro writeErr q cps hq
    cases writeErr with
    | some e => exact hq
    | none =>
      refine ⟨foldl_set_nodup cps _ hq.1, ?_⟩
      intro k cp hk
      simp only [CoinbaseProvider.SubscribeCurrencyPairs, CoinbaseProvider.subscribe,
        CoinbaseProvider.setSubscribedPairs] at hk
      rw [foldl_set_get?] at hk
      cases hf : cps.reverse.find? (fun cp => cp.str = k) with
      | some c =>
        rw [hf] at hk
        simp only [Option.some.injEq] at hk
        subst hk
        simpa using List.find?_some hf
      | none =>
        rw [hf] at hk
        exact hq.2 k cp hk
  induction h with
  | init => simp [GoMap.empty, GoMap.keys, GoMap.get?]
  | subscribed writeErr q cps _ ih => exact hsub writeErr q cps ih
  | received json parse now q messageType bz _ ih =>
    have e : (q.messageReceived json parse now messageType bz).subscribedPairs
        = q.subscribedPairs := by
      unfold CoinbaseProvider.messageReceived
      split
      · rfl
      · split
        · rfl
        · split
          · rfl
          · split
            · rfl
            · split <;> rfl
    rw [e]
    exact ih
  | reconnected dialErr writeErr iter q _ _ ih =>
    cases dialErr with
    | some e => exact ih
    | none => exact hsub writeErr q _ ih

/-- C13: in a state that can be reached, with subscription set `S`, a reconnect
whose dial and subscription write succeed writes one subscription message whose
product ids are, up to order, the `Base-Quote` of the pairs of `S`, `|S|` of
them, and leaves the subscription set, the ticker cache and the trade histories
as they were. -/
theorem reconnect_resubscribes (iter : GoMap CurrencyPair → List (String × CurrencyPair))
    (p : CoinbaseProvider) (hiter : ∀ m, List.Perm (iter m) m.entries) (hp : Reachable p) :
    (CoinbaseProvider.reconnect none none iter p).err = none ∧
    (∃ msg, (CoinbaseProvider.reconnect none none iter p).written = [msg] ∧
      msg.Type' = "subscribe" ∧ msg.Channels = ["matches", "ticker"] ∧
      List.Perm msg.ProductIDs (p.subscribedPairs.values.map currencyPairToCoinbasePair) ∧
      msg.ProductIDs.length = p.subscribedPairs.len) ∧
    (CoinbaseProvider.reconnect none none iter p).provider = p := by
  obtain ⟨hn, hk⟩ := Reachable.subscribedPairs_keyed p hp
  have hperm : List.Perm ((iter p.subscribedPairs).map Prod.snd)
      (p.subscribedPairs.values) := (hiter p.subscribedPairs).map Prod.snd
  refine ⟨rfl, ⟨_, rfl, rfl, rfl, ?_, ?_⟩, ?_⟩
  · simp only [CoinbaseProvider.subscribe, newCoinbaseSubscription, foldl_topics,
      List.nil_append, CoinbaseProvider.subscribedPairsToSlice, mapPairsToSlice]
    exact hperm.map _
  · simp only [CoinbaseProvider.subscribe, newCoinbaseSubscription, foldl_topics,
      List.nil_append, CoinbaseProvider.subscribedPairsToSlice, mapPairsToSlice,
      List.length_map]
    exact (hiter p.subscribedPairs).length_eq
  · have hsame : (CoinbaseProvider.subscribedPairsToSlice iter p).foldl
        (fun m cp => m.set cp.str cp) p.subscribedPairs = p.subscribedPairs := by
      apply foldl_set_same
      intro cp hcp
      simp only [CoinbaseProvider.subscribedPairsToSlice, mapPairsToSlice, List.mem_map,
        Prod.exists, exists_eq_right] at hcp
      obtain ⟨k, hmem⟩ := hcp
      have hget := GoMap.get?_of_mem p.subscribedPairs k cp hn
        ((hiter p.subscribedPairs).subset hmem)
      rw [hk k cp hget]
      exact hget
    simp only [CoinbaseProvider.reconnect, CoinbaseProvider.SubscribeCurrencyPairs,
      CoinbaseProvider.subscribe, CoinbaseProvider.setSubscribedPairs, hsame]

/-- C13 at a concrete input: after subscribing to `ATOM/USDT` and `LUNA/USDT`, a
reconnect that visits the set in reverse order writes the product ids
`LUNA-USDT`, `ATOM-USDT` and leaves the provider as it was. -/
theorem reconnect_resubscribes_witness :
    (CoinbaseProvider.reconnect none none List.reverse
        (CoinbaseProvider.SubscribeCurrencyPairs none ⟨GoMap.empty, GoMap.empty, GoMap.empty⟩
          [⟨"ATOM", "USDT"⟩, ⟨"LUNA", "USDT"⟩]).provider).written
      = [⟨"subscribe", ["LUNA-USDT", "ATOM-USDT"], ["matches", "ticker"]⟩] ∧
    (CoinbaseProvider.reconnect none none List.reverse
        (CoinbaseProvider.SubscribeCurrencyPairs none ⟨GoMap.empty, GoMap.empty, GoMap.empty⟩
          [⟨"ATOM", "USDT"⟩, ⟨"LUNA", "USDT"⟩]).provider).provider
      = (CoinbaseProvider.SubscribeCurrencyPairs none ⟨GoMap.empty, GoMap.empty, GoMap.empty⟩
          [⟨"ATOM", "USDT"⟩, ⟨"LUNA", "USDT"⟩]).provider :=
  ⟨by decide,
    (reconnect_resubscribes List.reverse
      (CoinbaseProvider.SubscribeCurrencyPairs none ⟨GoMap.empty, GoMap.empty, GoMap.empty⟩
        [⟨"ATOM", "USDT"⟩, ⟨"LUNA", "USDT"⟩]).provider
      (fun m => List.reverse_perm m)
      (Reachable.subscribed none _ _ Reachable.init)).2.2⟩

/-- C14: when the subscription write succeeds, `SubscribeCurrencyPairs(cps)`
returns no error and leaves the subscription set `S` extended, in the order of
`cps`, with pair-string -> pair for each pair of `cps`: a key named by `cps`
holds the last pair of `cps` with that pair-string, and every key not named by
`cps` holds what it held in `S`. A second call with `cps` leaves the set as the
first call left it. The caches are not touched. When the write fails the call
returns the error and the provider stays as it was. -/
theorem subscribeCurrencyPairs_merges (p : CoinbaseProvider) (cps : List CurrencyPair) :
    (CoinbaseProvider.SubscribeCurrencyPairs none p cps).err = none ∧
    (∀ k, (CoinbaseProvider.SubscribeCurrencyPairs none p cps).provider.subscribedPairs.get? k
      = match cps.reverse.find? (fun cp => cp.str = k) with
        | some cp => some cp
        | none => p.subscribedPairs.get? k) ∧
    (∀ k, (∀ cp ∈ cps, cp.str ≠ k) →
      (CoinbaseProvider.SubscribeCurrencyPairs none p cps).provider.subscribedPairs.get? k
        = p.subscribedPairs.get? k) ∧
    (∀ k, (CoinbaseProvider.SubscribeCurrencyPairs none
        (CoinbaseProvider.SubscribeCurrencyPairs none p cps).provider cps).provider.subscribedPairs.get?
          k
      = (CoinbaseProvider.SubscribeCurrencyPairs none p cps).provider.subscribedPairs.get? k) ∧
    (CoinbaseProvider.SubscribeCurrencyPairs none p cps).provider.trades = p.trades ∧
    (CoinbaseProvider.SubscribeCurrencyPairs none p cps).provider.tickers = p.tickers ∧
    (∀ e, (CoinbaseProvider.SubscribeCurrencyPairs (some e) p cps).err = some e ∧
      (CoinbaseProvider.SubscribeCurrencyPairs (some e) p cps).provider = p) := by
  have hget : ∀ (q : CoinbaseProvider) (k : String),
      (CoinbaseProvider.SubscribeCurrencyPairs none q cps).provider.subscribedPairs.get? k
        = match cps.reverse.find? (fun cp => cp.str = k) with
          | some cp => some cp
          | none => q.subscribedPairs.get? k := by
    intro q k
    simp only [CoinbaseProvider.SubscribeCurrencyPairs, CoinbaseProvider.subscribe,
      CoinbaseProvider.setSubscribedPairs]
    exact foldl_set_get? cps q.subscribedPairs k
  refine ⟨rfl, hget p, ?_, ?_, rfl, rfl, fun e => ⟨rfl, rfl⟩⟩
  · intro k hk
    rw [hget p k]
    have hnone : cps.reverse.find? (fun cp => cp.str = k) = none := by
      rw [List.find?_eq_none]
      intro cp hcp
      simpa using hk cp (List.mem_reverse.mp hcp)
    rw [hnone]
  · intro k
    rw [hget _ k, hget p k]
    cases cps.reverse.find? (fun cp => cp.str = k) <;> rfl

/-- C14 at a concrete input: subscribing to `LUNA/USDT` keeps the pair stored
under `ATOMUSDT`. -/
theorem subscribeCurrencyPairs_merges_witness :
    (CoinbaseProvider.SubscribeCurrencyPairs none
        ⟨GoMap.empty, GoMap.empty, [("ATOMUSDT", ⟨"ATOM", "USDT"⟩)]⟩
        [⟨"LUNA", "USDT"⟩]).provider.subscribedPairs.get? "ATOMUSDT"
      = (⟨GoMap.empty, GoMap.empty, [("ATOMUSDT", ⟨"ATOM", "USDT"⟩)]⟩ :
          CoinbaseProvider).subscribedPairs.get? "ATOMUSDT" :=
  (subscribeCurrencyPairs_merges ⟨GoMap.empty, GoMap.empty, [("ATOMUSDT", ⟨"ATOM", "USDT"⟩)]⟩
    [⟨"LUNA", "USDT"⟩]).2.2.1 "ATOMUSDT" (by decide)

/-! ## Streaming provider: reading tickers and candles -/

theorem tickerLoop_origin {D : Type} (NewDecFromStr : String → Option D)
    (p : CoinbaseProvider) (pairs : List CurrencyPair) (tp m : GoMap (TickerPrice D))
    (h : CoinbaseProvider.tickerLoop NewDecFromStr p pairs tp = (some m, none))
    (k : String) (v : TickerPrice D) (hv : m.get? k = some v) :
    tp.get? k = some v ∨
      ∃ cp ∈ pairs, cp.str = k ∧ p.getTickerPrice NewDecFromStr cp = Except.ok v := by
  induction pairs generalizing tp with
  | nil =>
    simp only [CoinbaseProvider.tickerLoop, Prod.mk.injEq, Option.some.injEq, and_true] at h
    subst h
    exact Or.inl hv
  | cons c rest ih =>
    simp only [CoinbaseProvider.tickerLoop] at h
    split at h
    · simp at h
    · rename_i price hprice
      rcases ih _ h with h1 | ⟨cp, hcp, hs, hg⟩
      · rw [GoMap.get?_set] at h1
        by_cases hk : c.str = k
        · simp only [hk, if_true, Option.some.injEq] at h1
          subst h1
          exact Or.inr ⟨c, List.mem_cons_self _ _, hk, hprice⟩
        · simp only [hk, if_false] at h1
          exact Or.inl h1
      · exact Or.inr ⟨cp, List.mem_cons_of_mem _ hcp, hs, hg⟩

theorem tickerLoop_covers {D : Type} (NewDecFromStr : String → Option D)
    (p : CoinbaseProvider) (pairs : List CurrencyPair) (tp m : GoMap (TickerPrice D))
    (h : CoinbaseProvider.tickerLoop NewDecFromStr p pairs tp = (some m, none)) :
    (∀ k, (tp.get? k).isSome → (m.get? k).isSome) ∧
    (∀ cp ∈ pairs, (m.get? cp.str).isSome) ∧ (tp.keys.Nodup → m.keys.Nodup) := by
  induction pairs generalizing tp with
  | nil =>
    simp only [CoinbaseProvider.tickerLoop, Prod.mk.injEq, Option.some.injEq, and_true] at h
    subst h
    exact ⟨fun _ hk => hk, fun cp hcp => absurd hcp (List.not_mem_nil cp), fun hn => hn⟩
  | cons c rest ih =>
    simp only [CoinbaseProvider.tickerLoop] at h
    split at h
    · simp at h
    · rename_i price hprice
      obtain ⟨h1, h2, h3⟩ := ih _ h
      refine ⟨?_, ?_, fun hn => h3 (GoMap.nodup_keys_set _ _ _ hn)⟩
      · intro k hk
        apply h1
        rw [GoMap.get?_set]
        split
        · rfl
        · exact hk
      · intro cp hcp
        rcases List.mem_cons.mp hcp with e | e
        · subst e
          apply h1
          rw [GoMap.get?_set_self]
          rfl
        · exact h2 cp e

theorem tickerLoop_completes {D : Type} (NewDecFromStr : String → Option D)
    (p : CoinbaseProvider) (pairs : List CurrencyPair) (tp : GoMap (TickerPrice D))
    (h : ∀ cp ∈ pairs, ∃ v, p.getTickerPrice NewDecFromStr cp = Except.ok v) :
    ∃ m, CoinbaseProvider.tickerLoop NewDecFromStr p pairs tp = (some m, none) := by
  induction pairs generalizing tp with
  | nil => exact ⟨tp, rfl⟩
  | cons c rest ih =>
    obtain ⟨v, hv⟩ := h c (List.mem_cons_self _ _)
    simp only [CoinbaseProvider.tickerLoop, hv]
    exact ih _ (fun cp hcp => h cp (List.mem_cons_of_mem _ hcp))

/-- The first pair the loop cannot serve decides the result: the map is nil and
the error is the one `getTickerPrice` returns for that pair. -/
theorem tickerLoop_first_error {D : Type} (NewDecFromStr : String → Option D)
    (p : CoinbaseProvider) (pre : List CurrencyPair) (cp : CurrencyPair)
    (rest : List CurrencyPair) (tp : GoMap (TickerPrice D)) (e : String)
    (hpre : ∀ c ∈ pre, ∃ v, p.getTickerPrice NewDecFromStr c = Except.ok v)
    (hcp : p.getTickerPrice NewDecFromStr cp = Except.error e) :
    CoinbaseProvider.tickerLoop NewDecFromStr p (pre ++ cp :: rest) tp = (none, some e) := by
  induction pre generalizing tp with
  | nil => simp only [List.nil_append, CoinbaseProvider.tickerLoop, hcp]
  | cons c pre' ih =>
    obtain ⟨v, hv⟩ := hpre c (List.mem_cons_self _ _)
    rw [List.cons_append]
    simp only [CoinbaseProvider.tickerLoop, hv]
    exact ih _ (fun c' hc' => hpre c' (List.mem_cons_of_mem _ hc'))

theorem tickerLoop_error_nil {D : Type} (NewDecFromStr : String → Option D)
    (p : CoinbaseProvider) (pairs : List CurrencyPair) (tp : GoMap (TickerPrice D))
    (h : ∃ cp ∈ pairs, ∃ e, p.getTickerPrice NewDecFromStr cp = Except.error e) :
    (CoinbaseProvider.tickerLoop NewDecFromStr p pairs tp).1 = none ∧
    (CoinbaseProvider.tickerLoop NewDecFromStr p pairs tp).2 ≠ none := by
  induction pairs generalizing tp with
  | nil =>
    obtain ⟨cp, hcp, _⟩ := h
    cases hcp
  | cons c rest ih =>
    cases hc : p.getTickerPrice NewDecFromStr c with
    | error e => simp [CoinbaseProvider.tickerLoop, hc]
    | ok v =>
      simp only [CoinbaseProvider.tickerLoop, hc]
      apply ih
      obtain ⟨cp, hcp, e, he⟩ := h
      rcases List.mem_cons.mp hcp with e1 | e1
      · subst e1
        rw [hc] at he
        cases he
      · exact ⟨cp, e1, e, he⟩

theorem getTickerPrice_cached {D : Type} (NewDecFromStr : String → Option D)
    (p : CoinbaseProvider) (cp : CurrencyPair) (t : CoinbaseTicker) (price volume : D)
    (ht : p.tickers.get? (currencyPairToCoinbasePair cp) = some t)
    (hp : NewDecFromStr t.Price = some price) (hv : NewDecFromStr t.Volume = some volume) :
    p.getTickerPrice NewDecFromStr cp = Except.ok ⟨price, volume⟩ := by
  simp [CoinbaseProvider.getTickerPrice, ht, CoinbaseTicker.toTickerPrice, newTickerPrice, hp, hv]

/-- C15, as amended: when requested pairs with the same pair-string are the same
pair and each requested pair has a cached ticker, under its product id
`Base-Quote`, whose price and volume read as decimals, `GetTickerPrices` returns
no error and a map with exactly one entry per requested pair, keyed by the
pair-string `Base+Quote`, whose price and volume are the decimals read from that
pair's cached price and 24h volume; the provider is not modified. -/
theorem coinbase_getTickerPrices_cached {D : Type} (NewDecFromStr : String → Option D)
    (p : CoinbaseProvider) (pairs : List CurrencyPair)
    (hstr : ∀ cp ∈ pairs, ∀ cp' ∈ pairs, cp.str = cp'.str → cp = cp')
    (hcached : ∀ cp ∈ pairs, ∃ t price volume,
      p.tickers.get? (currencyPairToCoinbasePair cp) = some t ∧
      NewDecFromStr t.Price = some price ∧ NewDecFromStr t.Volume = some volume) :
    (p.GetTickerPrices NewDecFromStr pairs).1 = p ∧
    ∃ m, (p.GetTickerPrices NewDecFromStr pairs).2 = (some m, none) ∧
      m.keys.Nodup ∧ (∀ k, k ∈ m.keys ↔ ∃ cp ∈ pairs, cp.str = k) ∧
      ∀ cp ∈ pairs, ∀ t, p.tickers.get? (currencyPairToCoinbasePair cp) = some t →
        ∃ price volume, NewDecFromStr t.Price = some price ∧
          NewDecFromStr t.Volume = some volume ∧ m.get? cp.str = some ⟨price, volume⟩ := by
  have hok : ∀ cp ∈ pairs, ∀ t, p.tickers.get? (currencyPairToCoinbasePair cp) = some t →
      ∃ price volume, NewDecFromStr t.Price = some price ∧
        NewDecFromStr t.Volume = some volume ∧
        p.getTickerPrice NewDecFromStr cp = Except.ok ⟨price, volume⟩ := by
    intro cp hcp t ht
    obtain ⟨t', price, volume, ht', hp, hv⟩ := hcached cp hcp
    rw [ht] at ht'
    cases ht'
    exact ⟨price, volume, hp, hv, getTickerPrice_cached NewDecFromStr p cp t price volume ht hp hv⟩
  obtain ⟨m, hm⟩ := tickerLoop_completes NewDecFromStr p pairs GoMap.empty (by
    intro cp hcp
    obtain ⟨t, _, _, ht, _, _⟩ := hcached cp hcp
    obtain ⟨price, volume, _, _, hg⟩ := hok cp hcp t ht
    exact ⟨_, hg⟩)
  obtain ⟨_, hall, hnodup⟩ := tickerLoop_covers NewDecFromStr p pairs GoMap.empty m hm
  refine ⟨rfl, m, hm, hnodup (by simp [GoMap.empty, GoMap.keys]), ?_, ?_⟩
  · intro k
    constructor
    · intro hk
      obtain ⟨v, hv⟩ := Option.isSome_iff_exists.mp ((GoMap.get?_isSome_iff m k).mpr hk)
      rcases tickerLoop_origin NewDecFromStr p pairs _ m hm k v hv with h1 | ⟨cp, hcp, hs, _⟩
      · simp [GoMap.empty, GoMap.get?] at h1
      · exact ⟨cp, hcp, hs⟩
    · rintro ⟨cp, hcp, rfl⟩
      exact (GoMap.get?_isSome_iff m cp.str).mp (hall cp hcp)
  · intro cp hcp t ht
    obtain ⟨price, volume, hp, hv, hg⟩ := hok cp hcp t ht
    refine ⟨price, volume, hp, hv, ?_⟩
    obtain ⟨v, hget⟩ := Option.isSome_iff_exists.mp (hall cp hcp)
    rcases tickerLoop_origin NewDecFromStr p pairs _ m hm cp.str v hget with
      h1 | ⟨cp', hcp', hs, hg'⟩
    · simp [GoMap.empty, GoMap.get?] at h1
    · have e : cp' = cp := hstr cp' hcp' cp hcp hs
      rw [e, hg] at hg'
      cases hg'
      exact hget

/-- C15 at a concrete input: with the ticker of `ATOM-USDT` cached at price 34.69
and volume 2396974.02, the request `{ATOM, USDT}` gives that price and volume
under `ATOMUSDT`. -/
theorem coinbase_getTickerPrices_cached_witness :
    ((⟨GoMap.empty, [("ATOM-USDT", ⟨"ATOM-USDT", "34.69", "2396974.02"⟩)], GoMap.empty⟩ :
        CoinbaseProvider).GetTickerPrices readDec [⟨"ATOM", "USDT"⟩]).2
      = (some [("ATOMUSDT", ⟨34690000000000000000, 2396974020000000000000000⟩)], none) ∧
    ((⟨GoMap.empty, [("ATOM-USDT", ⟨"ATOM-USDT", "34.69", "2396974.02"⟩)], GoMap.empty⟩ :
        CoinbaseProvider).GetTickerPrices readDec [⟨"ATOM", "USDT"⟩]).1
      = ⟨GoMap.empty, [("ATOM-USDT", ⟨"ATOM-USDT", "34.69", "2396974.02"⟩)], GoMap.empty⟩ :=
  ⟨by decide,
    (coinbase_getTickerPrices_cached readDec
      ⟨GoMap.empty, [("ATOM-USDT", ⟨"ATOM-USDT", "34.69", "2396974.02"⟩)], GoMap.empty⟩
      [⟨"ATOM", "USDT"⟩]
      (by
        intro cp hcp cp' hcp' _
        rw [List.mem_singleton.mp hcp, List.mem_singleton.mp hcp'])
      (by
        intro cp hcp
        rw [List.mem_singleton.mp hcp]
        exact ⟨⟨"ATOM-USDT", "34.69", "2396974.02"⟩, 34690000000000000000,
          2396974020000000000000000, by decide, by decide, by decide⟩)).1⟩

/-- C15 as stated fails: the pairs `{AT, OM}` and `{A, TOM}` both have a cached
ticker that reads as decimals, but they share the pair-string `ATOM`, so the map
has one entry, and it holds the price of `A-TOM`, not that of `AT-OM`. -/
theorem coinbase_getTickerPrices_cached_counterexample :
    ((⟨GoMap.empty, [("AT-OM", ⟨"AT-OM", "1", "10"⟩), ("A-TOM", ⟨"A-TOM", "2", "20"⟩)],
        GoMap.empty⟩ : CoinbaseProvider).GetTickerPrices readDec
        [⟨"AT", "OM"⟩, ⟨"A", "TOM"⟩]).2
      = (some [("ATOM", ⟨2000000000000000000, 20000000000000000000⟩)], none) ∧
    readDec "1" = some 1000000000000000000 ∧
    (⟨"AT", "OM"⟩ : CurrencyPair).str = "ATOM" := by
  decide

/-- C16, as amended: when the list of requested pairs holds a pair with no cached
ticker, `GetTickerPrices` returns a nil map and an error; when every pair before
the first such pair has a cached ticker that reads as decimals, the error names
the missing pair by its product id: "coinbase provider failed to get ticker price
for" followed by `Base-Quote`. -/
theorem coinbase_getTickerPrices_missing {D : Type} (NewDecFromStr : String → Option D)
    (p : CoinbaseProvider) (pre : List CurrencyPair) (cp : CurrencyPair)
    (rest : List CurrencyPair)
    (hmiss : p.tickers.get? (currencyPairToCoinbasePair cp) = none) :
    (p.GetTickerPrices NewDecFromStr (pre ++ cp :: rest)).2.1 = none ∧
    (p.GetTickerPrices NewDecFromStr (pre ++ cp :: rest)).2.2 ≠ none ∧
    ((∀ c ∈ pre, ∃ v, p.getTickerPrice NewDecFromStr c = Except.ok v) →
      (p.GetTickerPrices NewDecFromStr (pre ++ cp :: rest)).2
        = (none, some ("coinbase provider failed to get ticker price for " ++ cp.Base ++ "-"
            ++ cp.Quote))) := by
  have hcp : p.getTickerPrice NewDecFromStr cp = Except.error
      ("coinbase provider failed to get ticker price for " ++ cp.Base ++ "-" ++ cp.Quote) := by
    unfold CoinbaseProvider.getTickerPrice
    simp only [hmiss]
    simp [currencyPairToCoinbasePair, String.append_assoc]
  obtain ⟨h1, h2⟩ := tickerLoop_error_nil NewDecFromStr p (pre ++ cp :: rest) GoMap.empty
    ⟨cp, by simp, _, hcp⟩
  refine ⟨h1, h2, ?_⟩
  intro hpre
  exact tickerLoop_first_error NewDecFromStr p pre cp rest GoMap.empty _ hpre hcp

/-- C16 at a concrete input: the request `{FOO, BAR}` against an empty ticker
cache returns a nil map and an error. -/
theorem coinbase_getTickerPrices_missing_witness :
    ((⟨GoMap.empty, GoMap.empty, GoMap.empty⟩ : CoinbaseProvider).GetTickerPrices readDec
        ([] ++ (⟨"FOO", "BAR"⟩ : CurrencyPair) :: [])).2.1 = none :=
  (coinbase_getTickerPrices_missing readDec ⟨GoMap.empty, GoMap.empty, GoMap.empty⟩ []
    ⟨"FOO", "BAR"⟩ [] (by decide)).1

/-- C16 as stated fails: for the request `{FOO, BAR}` against an empty ticker
cache the error names the pair as `FOO-BAR`; its text does not end in "failed to
get ticker price for FOOBAR". -/
theorem coinbase_getTickerPrices_missing_counterexample :
    ((⟨GoMap.empty, GoMap.empty, GoMap.empty⟩ : CoinbaseProvider).GetTickerPrices readDec
        [⟨"FOO", "BAR"⟩]).2
      = (none, some "coinbase provider failed to get ticker price for FOO-BAR") ∧
    ("failed to get ticker price for FOOBAR".data.isSuffixOf
        "coinbase provider failed to get ticker price for FOO-BAR".data) = false := by
  decide

/-- C17 at the failing inputs: whatever trades are saved and whatever pairs are
requested, `GetCandlePrices` returns the nil map with a nil error, against its
doc comment "returns candles based off of the saved trades map". -/
theorem coinbase_getCandlePrices_nil {D : Type} (p : CoinbaseProvider)
    (pairs : List CurrencyPair) :
    (p.GetCandlePrices pairs : Option (GoMap (List (CandlePrice D))) × Option String)
      = (none, none) := rfl

/-! ## Streaming provider: the timestamp of a trade -/

/-- C18, as amended: for a time field that `time.Parse` reads with the layout,
`timeToUnix` returns 1000 times the whole seconds from the Unix epoch to that
instant, which is the epoch milliseconds of the instant rounded down to a
multiple of 1000 (the two agree exactly when the instant has no milliseconds
beyond the whole second); for a time field that does not match the layout it
returns 0. -/
theorem timeToUnix_whole_seconds (parse : String → Option GoTime)
    (tr : CoinbaseTradeResponse) :
    (∀ t, parse tr.Time = some t → -2 ^ 63 ≤ t.Unix * 1000 → t.Unix * 1000 < 2 ^ 63 →
      tr.timeToUnix parse = t.Unix * 1000 ∧
      tr.timeToUnix parse = t.UnixMilli - t.UnixMilli % 1000 ∧
      (tr.timeToUnix parse = t.UnixMilli ↔ t.UnixMilli % 1000 = 0)) ∧
    (parse tr.Time = none → tr.timeToUnix parse = 0) := by
  constructor
  · intro t ht h1 h2
    have hw : tr.timeToUnix parse = t.Unix * 1000 := by
      simp only [CoinbaseTradeResponse.timeToUnix, ht]
      exact wrapInt64_of_range _ (by simpa using h1) (by simpa using h2)
    have hu : t.Unix = t.unixNano / 1000000000 :=
      Int.fdiv_eq_ediv _ (by decide)
    have hm : t.UnixMilli = t.unixNano / 1000000 :=
      Int.fdiv_eq_ediv _ (by decide)
    refine ⟨hw, ?_, ?_⟩
    · rw [hw, hu, hm]
      omega
    · rw [hw, hu, hm]
      omega
  · intro hn
    simp [CoinbaseTradeResponse.timeToUnix, hn]

/-- C18 at a concrete input: the time field `2022-03-15T12:00:00.000000Z` gives
1647345600000, and a field that does not match the layout gives 0. -/
theorem timeToUnix_whole_seconds_witness :
    (⟨"match", "ATOM-USDT", "2022-03-15T12:00:00.000000Z", "0.5", "30.12"⟩ :
        CoinbaseTradeResponse).timeToUnix parseTimeLayout = 1647345600 * 1000 ∧
    (⟨"match", "ATOM-USDT", "12:00", "0.5", "30.12"⟩ :
        CoinbaseTradeResponse).timeToUnix parseTimeLayout = 0 :=
  ⟨((timeToUnix_whole_seconds parseTimeLayout
      ⟨"match", "ATOM-USDT", "2022-03-15T12:00:00.000000Z", "0.5", "30.12"⟩).1
      ⟨1647345600000000000⟩ (by decide) (by decide) (by decide)).1,
    (timeToUnix_whole_seconds parseTimeLayout
      ⟨"match", "ATOM-USDT", "12:00", "0.5", "30.12"⟩).2 (by decide)⟩

/-- C18 as stated fails: the time field `2022-03-15T12:00:00.123456Z` matches the
layout and stands for the instant 1647345600123 ms after the epoch, but
`timeToUnix` returns 1647345600000. -/
theorem timeToUnix_whole_seconds_counterexample :
    (parseTimeLayout "2022-03-15T12:00:00.123456Z").map GoTime.UnixMilli = some 1647345600123 ∧
    (⟨"match", "ATOM-USDT", "2022-03-15T12:00:00.123456Z", "0.5", "30.12"⟩ :
        CoinbaseTradeResponse).timeToUnix parseTimeLayout = 1647345600000 := by
  decide

/-! ## Broadcast client: termination -/

theorem retryLoop_ends (maxBlockHeight : Int) (heights : List HeightQuery)
    (submits : List Submit) (last : Int) (tel : Telemetry)
    (hend : ∃ q ∈ heights, (∃ e, q = HeightQuery.failed e) ∨
      ∃ h, q = HeightQuery.height h ∧ maxBlockHeight ≤ h)
    (hlen : heights.length ≤ submits.length) :
    (retryLoop maxBlockHeight heights submits last tel).ret ≠ none := by
  induction heights generalizing submits last tel with
  | nil =>
    obtain ⟨q, hq, _⟩ := hend
    cases hq
  | cons q rest ih =>
    by_cases hlt : last < maxBlockHeight
    · simp only [List.length_cons] at hlen
      cases q with
      | failed e => simp [retryLoop, hlt]
      | height latest =>
        have hrest : ¬ maxBlockHeight ≤ latest →
            ∃ q ∈ rest, (∃ e, q = HeightQuery.failed e) ∨
              ∃ h, q = HeightQuery.height h ∧ maxBlockHeight ≤ h := by
          intro hsmall
          obtain ⟨q, hq, hq'⟩ := hend
          rcases List.mem_cons.mp hq with e | e
          · subst e
            rcases hq' with ⟨e', he'⟩ | ⟨h, hh, hmax⟩
            · cases he'
            · cases hh
              exact absurd hmax hsmall
          · exact ⟨q, e, hq'⟩
        by_cases hle : latest ≤ last
        · simp only [retryLoop, hlt, hle, if_true, Run.after_ret]
          exact ih submits last tel (hrest (by omega)) (by omega)
        · cases submits with
          | nil => simp at hlen
          | cons s ss =>
            simp only [List.length_cons] at hlen
            cases hs : s.errAfterCode.isSome
            · cases hr : s.resp <;> simp [retryLoop, hlt, hle, hs, hr]
            · simp only [retryLoop, hlt, hle, if_true, if_false, hs, Run.after_ret]
              by_cases hdone : latest < maxBlockHeight
              · exact ih ss latest _ (hrest (by omega)) (by omega)
              · rw [retryLoop_deadline _ _ _ _ _ hdone]
                simp
    · rw [retryLoop_deadline _ _ _ _ _ hlt]
      simp

theorem retryLoop_queries_le (maxBlockHeight : Int) (heights : List HeightQuery)
    (submits : List Submit) (last : Int) (tel : Telemetry) :
    (queriesOf (retryLoop maxBlockHeight heights submits last tel).trace).length
      ≤ heights.length := by
  induction heights generalizing submits last tel with
  | nil => by_cases hlt : last < maxBlockHeight <;> simp [retryLoop, hlt, queriesOf]
  | cons q rest ih =>
    by_cases hlt : last < maxBlockHeight
    · cases q with
      | failed e => simp [retryLoop, hlt, queriesOf]
      | height latest =>
        by_cases hle : latest ≤ last
        · simp only [retryLoop, hlt, hle, if_true, Run.after_trace, List.singleton_append,
            queriesOf, List.length_cons, add_le_add_iff_right]
          exact ih submits last tel
        · cases submits with
          | nil => simp [retryLoop, hlt, hle, queriesOf]
          | cons s ss =>
            cases hs : s.errAfterCode.isSome
            · cases hr : s.resp <;> simp [retryLoop, hlt, hle, hs, hr, queriesOf]
            · simp only [retryLoop, hlt, hle, if_true, if_false, hs, Run.after_trace,
                List.cons_append, List.nil_append, queriesOf, List.length_cons,
                add_le_add_iff_right]
              exact ih ss latest _
    · rw [retryLoop_deadline _ _ _ _ _ hlt]
      simp [queriesOf]

/-- C19, as amended: on every infinite stream of height-query and submit results
in which the query number `k` fails or returns a height at or above
`maxBlockHeight = nextBlockHeight + timeoutHeight`, the call has ended within the
first `k + 1` iterations of the loop; and when `timeoutHeight < 0`, without
`int64` overflow in `nextBlockHeight + timeoutHeight` and `nextBlockHeight - 1`,
it ends with the timeout error without any height query or submit. -/
theorem broadcastTx_self_terminates (nextBlockHeight timeoutHeight : Int) (tel : Telemetry) :
    (∀ (heights : Nat → HeightQuery) (submits : Nat → Submit) (k : Nat),
      ((∃ e, heights k = HeightQuery.failed e) ∨
        ∃ h, heights k = HeightQuery.height h ∧
          wrapInt64 (nextBlockHeight + timeoutHeight) ≤ h) →
      (BroadcastTx none none nextBlockHeight timeoutHeight ((List.range (k + 1)).map heights)
        ((List.range (k + 1)).map submits) tel).ret ≠ none ∧
      (queriesOf (BroadcastTx none none nextBlockHeight timeoutHeight
        ((List.range (k + 1)).map heights) ((List.range (k + 1)).map submits) tel).trace).length
        ≤ k + 1) ∧
    (timeoutHeight < 0 → -2 ^ 63 ≤ nextBlockHeight + timeoutHeight →
      nextBlockHeight - 1 < 2 ^ 63 →
      ∀ (heights : List HeightQuery) (submits : List Submit),
        (BroadcastTx none none nextBlockHeight timeoutHeight heights submits tel).ret
          = some (Return.err Error.timedOut) ∧
        (BroadcastTx none none nextBlockHeight timeoutHeight heights submits tel).trace = []) := by
  constructor
  · intro heights submits k hk
    constructor
    · apply retryLoop_ends
      · exact ⟨heights k, List.mem_map.mpr ⟨k, List.mem_range.mpr (by omega), rfl⟩, hk⟩
      · simp
    · have := retryLoop_queries_le (wrapInt64 (nextBlockHeight + timeoutHeight))
        ((List.range (k + 1)).map heights) ((List.range (k + 1)).map submits)
        (wrapInt64 (nextBlockHeight - 1)) tel
      simpa [BroadcastTx] using this
  · intro hneg h1 h2 heights submits
    have e1 : wrapInt64 (nextBlockHeight + timeoutHeight) = nextBlockHeight + timeoutHeight :=
      wrapInt64_of_range _ h1 (by norm_num at h2 ⊢; omega)
    have e2 : wrapInt64 (nextBlockHeight - 1) = nextBlockHeight - 1 :=
      wrapInt64_of_range _ (by norm_num at h1 ⊢; omega) h2
    have hd : ¬ wrapInt64 (nextBlockHeight - 1) < wrapInt64 (nextBlockHeight + timeoutHeight) := by
      rw [e1, e2]
      omega
    simp only [BroadcastTx]
    rw [retryLoop_deadline _ _ _ _ _ hd]
    exact ⟨rfl, rfl⟩

/-- C19 at a concrete input: on the stream of heights 100, 101, 102, ... with
every submit failing, `maxBlockHeight = 102` is observed at query number 2 and
the call has returned by then; with `timeoutHeight = -1` it returns the timeout
error at once. -/
theorem broadcastTx_self_terminates_witness :
    (BroadcastTx none none 100 2 ((List.range (2 + 1)).map (fun i => HeightQuery.height (100 + i)))
        ((List.range (2 + 1)).map (fun _ => (⟨none, some "connection refused"⟩ : Submit)))
        noCounts).ret ≠ none ∧
    (BroadcastTx none none 100 (-1) [HeightQuery.height 100]
        [⟨some ⟨0, "A1", 100⟩, none⟩] noCounts).trace = [] :=
  ⟨((broadcastTx_self_terminates 100 2 noCounts).1 (fun i => HeightQuery.height (100 + i))
      (fun _ => ⟨none, some "connection refused"⟩) 2
      (Or.inr ⟨102, by decide, by decide⟩)).1,
    ((broadcastTx_self_terminates 100 (-1) noCounts).2 (by decide) (by decide) (by decide)
      [HeightQuery.height 100] [⟨some ⟨0, "A1", 100⟩, none⟩]).2⟩

/-- C19 as stated fails: with `nextBlockHeight = -2^63 + 5` and
`timeoutHeight = -10` the sum wraps around to `2^63 - 5`, so although
`timeoutHeight < 0` the loop runs, queries the height and submits. -/
theorem broadcastTx_self_terminates_counterexample :
    wrapInt64 (-9223372036854775803 + -10) = 9223372036854775803 ∧
    (BroadcastTx none none (-9223372036854775803) (-10) [HeightQuery.height 0]
        [⟨none, some "connection refused"⟩] noCounts).trace
      = [Action.query (HeightQuery.height 0),
          Action.submit 0 ⟨none, some "connection refused"⟩] ∧
    (BroadcastTx none none (-9223372036854775803) (-10) [HeightQuery.height 0]
        [⟨none, some "connection refused"⟩] noCounts).ret
      ≠ some (Return.err Error.timedOut) := by
  decide

/-! ## Polling provider: the duplicate check -/

/-- C20 at the failing input: the snapshot holds `AT` once and `ATOM` once, each
the base of a requested pair, and the call fails with the duplicate-token error
for `ATOM`: the entry of `{AT, OM}` was stored under its pair-string `ATOM`, the
key the duplicate check of osmosis.go 100 then looks up for the symbol `ATOM`. -/
theorem getTickerPrices_spurious_duplicate :
    GetTickerPrices textDeps [⟨"AT", "OM"⟩, ⟨"ATOM", "USDT"⟩]
        [⟨"1", "AT", "10"⟩, ⟨"2", "ATOM", "20"⟩]
      = (none, some "duplicate token found in Osmosis response: ATOM") ∧
    ([(⟨"1", "AT", "10"⟩ : OsmosisTokenResponse String), ⟨"2", "ATOM", "20"⟩].map
      (fun tr => textDeps.ToUpper tr.Symbol)).Nodup := by
  decide

end PriceFeeder
